import Mathlib

/-!
Verification of the node-detacher reconciliation state machine.

This file gives a shallow embedding of the Go sources of mumoshu/node-detacher:
the node data model, the attachment-record data model, the detach orchestrator
(`NodeAttachments.detachNodes`), the attachment cache
(`NodeAttachments.cacheNodeAttachments`), the AWS resolution helpers
(`getIdToTGs`, `getIdToCLBs`), the taint helpers (`taintNode`, `untaintNode`)
and the reconciler (`NodeController.Reconcile`).

Go maps are embedded as association lists; the Kubernetes store (nodes and
attachment records) is an explicit state record threaded through every
function, and every external call (registry deregistration/registration,
node or record writes, pod deletion) is logged as an `Event`.  Registry and
resolution calls carry failure oracles in `Env`; store reads fail when the
object is absent from the state, store writes are modelled as succeeding
(the claims under study quantify over registry failures, not store failures).
-/

namespace NodeDetacher

/-! ## Association-list primitives (embedding of Go maps) -/

/-- Lookup in an association list, first match wins (Go map read). -/
def alookup (k : String) : List (String × α) → Option α
  | [] => none
  | (k', v) :: rest => if k' = k then some v else alookup k rest

/-- Set a key in an association list (Go map write). -/
def aset (k : String) (v : α) : List (String × α) → List (String × α)
  | [] => [(k, v)]
  | (k', v') :: rest => if k' = k then (k, v) :: rest else (k', v') :: aset k v rest

/-- Delete a key from an association list (Go `delete`). -/
def adel (k : String) : List (String × α) → List (String × α)
  | [] => []
  | (k', v') :: rest => if k' = k then adel k rest else (k', v') :: adel k rest

/-- Append a value to the list stored at a key (Go `m[k] = append(m[k], v)`). -/
def apush (k : String) (v : α) : List (String × List α) → List (String × List α)
  | [] => [(k, [v])]
  | (k', vs) :: rest => if k' = k then (k, vs ++ [v]) :: rest else (k', vs) :: apush k v rest

/-- Embedding of Go strings.HasPrefix, written over the character list so
that it evaluates inside the kernel. -/
def strHasPfx (pre s : String) : Bool := pre.data.isPrefixOf s.data

/-- Append a value at a two-level key (Go `m[k1][k2] = append(m[k1][k2], v)`). -/
def apush2 (k1 k2 : String) (v : α) (m : List (String × List (String × List α))) :
    List (String × List (String × List α)) :=
  match alookup k1 m with
  | none => aset k1 (apush k2 v []) m
  | some inner => aset k1 (apush k2 v inner) m

/-! ## Data model -/

/-- A node taint (corev1.Taint: key, value, effect). -/
structure Taint where
  key : String
  value : String
  effect : String
  deriving DecidableEq

/-- A node condition (corev1.NodeCondition restricted to the fields read:
type and status). -/
structure NodeCondition where
  condType : String
  status : String
  deriving DecidableEq

/-- A Kubernetes node, restricted to the fields this controller reads and
writes: name, labels, annotations, taints, the explicit unschedulable flag
and status conditions. -/
structure Node where
  name : String
  labels : List (String × String)
  annotations : List (String × String)
  taints : List Taint
  unschedulable : Bool
  conditions : List NodeCondition
  deriving DecidableEq

/-- One target-group entry of an attachment record
(v1alpha1.AwsTarget: ARN, optional port, detached flag). -/
structure AwsTarget where
  arn : String
  port : Option Int
  detached : Bool
  deriving DecidableEq

/-- One classic-load-balancer entry of an attachment record
(v1alpha1.AwsLoadBalancer: name, detached flag). -/
structure AwsLoadBalancer where
  name : String
  detached : Bool
  deriving DecidableEq

/-- The spec of a per-node attachment record (v1alpha1.AttachmentSpec). -/
structure AttachmentSpec where
  nodeName : String
  awsTargets : List AwsTarget
  awsLoadBalancers : List AwsLoadBalancer
  deriving DecidableEq

/-- Registry-side state of one target group: its ARN and the target health
descriptions it reports, each an (instance id, optional port) pair. -/
structure TG where
  arn : String
  health : List (String × Option Int)
  deriving DecidableEq

/-- Registry-side state of one classic load balancer: its name and the
instance ids registered with it. -/
structure CLB where
  name : String
  instances : List String
  deriving DecidableEq

/-- An observable external effect of the controller. -/
inductive Event where
  | deregTG (arn : String) (port : Option Int) (inst : String)
  | deregCLB (lb : String) (inst : String)
  | regTG (arn : String) (port : Option Int) (inst : String)
  | regCLB (lb : String) (inst : String)
  | nodeWrite (name : String)
  | recordWrite (name : String)
  | podsDelete (name : String)
  deriving DecidableEq

/-- True for the four registry (deregistration/registration) call events. -/
def Event.isRegistryCall : Event → Bool
  | .deregTG _ _ _ => true
  | .deregCLB _ _ => true
  | .regTG _ _ _ => true
  | .regCLB _ _ => true
  | _ => false

/-- True exactly for the attachment-record write event. -/
def Event.isRecordWrite : Event → Bool
  | .recordWrite _ => true
  | _ => false

/-- True exactly for the pod-deletion event. -/
def Event.isPodsDelete : Event → Bool
  | .podsDelete _ => true
  | _ => false

/-- The cluster-store state threaded through the controller: the node list,
the attachment records keyed by node name, and the log of external effects. -/
structure St where
  nodes : List Node
  records : List (String × AttachmentSpec)
  events : List Event
  deriving DecidableEq

/-- The external environment: registry contents, failure oracles for every
registry and resolution call, the pod-deletion outcome and the current time
as the string `time.Now().Format(time.RFC3339)` would produce. -/
structure Env where
  tgDeregFail : String → Option Int → Bool
  clbDeregFail : String → Bool
  tgRegFail : String → Option Int → Bool
  clbRegFail : String → Bool
  targetGroups : List TG
  clbs : List CLB
  describeTGFail : Bool
  describeHealthFail : String → Bool
  describeCLBFail : Bool
  deletePodsFail : Bool
  now : String

/-- The NodeController configuration flags read by the reconciliation paths
under study, together with the controller name and the `synced` state flag. -/
structure Config where
  awsEnabled : Bool
  albIngress : Bool
  dynamicNLB : Bool
  dynamicCLB : Bool
  staticTGs : Bool
  staticCLBs : Bool
  name : String
  synced : Bool

/-- NodeController.dynamicMode. -/
def dynamicMode (c : Config) : Bool :=
  c.albIngress || c.dynamicNLB || c.dynamicCLB

/-- NodeController.staticMode. -/
def staticMode (c : Config) : Bool :=
  !dynamicMode c

/-- NodeController.shouldHandleTargetGroups (the source tests the static-CLB
flag here, not the static-TG flag). -/
def shouldHandleTargetGroups (c : Config) : Bool :=
  c.staticCLBs || c.albIngress || c.dynamicNLB

/-- NodeController.shouldHandleCLBs. -/
def shouldHandleCLBs (c : Config) : Bool :=
  c.staticCLBs || c.dynamicCLB

/-! ## Well-known keys (node_controller.go, cache.go) -/

def NodeLabelInstanceID : String := "alpha.eksctl.io/instance-id"
def NodeTaintKeyDetaching : String := "node-detacher.variant.run/detaching"
def NodeTaintToBeDeletedByCA : String := "ToBeDeletedByClusterAutoscaler"
def NodeAnnotationKeyDetached : String := "node-detacher.variant.run/detached"
def NodeAnnotationKeyDetaching : String := "node-detacher.variant.run/detaching"
def NodeAnnotationKeyDetachmentTimestamp : String :=
  "node-detacher.variant.run/detachment-timestamp"
def NodeAnnotationKeyAttachmentTimestamp : String :=
  "node-detacher.variant.run/attachment-timestamp"
def NodeLabelKeyCached : String := "node-detacher.variant.run/cached"
def NodeTaintKeyK8sNode : String := "node.kubernetes.io/"
def excludeBalancerKey : String := "alpha.service-controller.kubernetes.io/exclude-balancer"
def masterTaintKey : String := "node-role.kubernetes.io/master"

/-! ## Store access -/

/-- Read a node by name from the store (client.Get on a Node). -/
def getNode (name : String) : List Node → Option Node
  | [] => none
  | m :: rest => if m.name = name then some m else getNode name rest

/-- Write a node back to the store, replacing the entry of the same name
(client.Update on a Node). -/
def setNode (n : Node) : List Node → List Node
  | [] => []
  | m :: rest => if m.name = n.name then n :: rest else m :: setNode n rest

/-! ## kubernetes.go and part_012 helpers -/

/-- getInstanceID: the instance id is the value of a required node label. -/
def getInstanceID (node : Node) : Option String :=
  alookup NodeLabelInstanceID node.labels

/-- NodeAttachments.Cached: the node carries the cached label with value
"true". -/
def Cached (node : Node) : Bool :=
  decide (alookup NodeLabelKeyCached node.labels = some "true")

/-- taintNode: set the value of an existing detaching taint, or append a
fresh NoSchedule detaching taint. -/
def taintNode (node : Node) (value : String) : Node :=
  if node.taints.any (fun t => t.key = NodeTaintKeyDetaching) then
    { node with taints :=
        node.taints.map (fun t =>
          if t.key = NodeTaintKeyDetaching then { t with value := value } else t) }
  else
    { node with taints :=
        node.taints ++ [{ key := NodeTaintKeyDetaching, value := value, effect := "NoSchedule" }] }

/-- untaintNode: drop every taint whose key is the detaching taint key. -/
def untaintNode (node : Node) : Node :=
  { node with taints := node.taints.filter (fun t => t.key ≠ NodeTaintKeyDetaching) }

/-! ## Reconcile classification (node_controller.go lines 211-299) -/

/-- A node is a master node when it carries the master-role taint. -/
def isMasterNode (node : Node) : Bool :=
  node.taints.any (fun t => t.key = masterTaintKey)

/-- nodeBeingDetached: a NodeBeingDetached condition with status True, or the
detaching annotation with value "true". -/
def nodeBeingDetached (node : Node) : Bool :=
  node.conditions.any (fun c => c.condType = "NodeBeingDetached" && c.status = "True")
  || node.annotations.any (fun kv => kv.1 = NodeAnnotationKeyDetaching && kv.2 = "true")

/-- nodeRequireDetached: the detached annotation is present, any value. -/
def nodeRequireDetached (node : Node) : Bool :=
  node.annotations.any (fun kv => kv.1 = NodeAnnotationKeyDetached)

/-- toBeDeletedByCA: a taint whose key equals the cluster-autoscaler
to-be-deleted key. -/
def toBeDeletedByCA (node : Node) : Bool :=
  node.taints.any (fun t => t.key = NodeTaintToBeDeletedByCA)

/-- hasAnyK8sTaint: a taint whose key starts with the node-lifecycle key
space. -/
def hasAnyK8sTaint (node : Node) : Bool :=
  node.taints.any (fun t => strHasPfx NodeTaintKeyK8sNode t.key)

/-- The taint-key ignore list of the reconciler. -/
def ignoredTaintKeys : List String :=
  [NodeTaintToBeDeletedByCA, NodeTaintKeyDetaching, NodeTaintKeyK8sNode]

/-- hasAnyCustomTaint: a taint whose key starts with none of the ignored
keys. -/
def hasAnyCustomTaint (node : Node) : Bool :=
  node.taints.any (fun t => !(ignoredTaintKeys.any (fun p => strHasPfx p t.key)))

/-- nodeIsSchedulable, exactly as the conjunction at node_controller.go:299. -/
def nodeIsSchedulable (node : Node) : Bool :=
  !node.unschedulable && !toBeDeletedByCA node && !hasAnyK8sTaint node
  && !hasAnyCustomTaint node && !nodeRequireDetached node

/-! ## Detach orchestrator (part_001, NodeAttachments.detachNodes) -/

/-- The per-target loop of detachNodes: skip entries already detached; for
each live entry first write the exclude-from-balancer label onto the latest
node, then call the (arn, port)-qualified or unqualified deregistration;
flip the entry in memory on success; stop with an error on the first failed
store read or registry call.  Returns the in-memory targets, the update
count, the state and the success flag. -/
def detachTGLoop (env : Env) (inst nodeName : String) :
    List AwsTarget → St → Nat → List AwsTarget × Nat × St × Bool
  | [], st, k => ([], k, st, true)
  | t :: ts, st, k =>
    if t.detached then
      let r := detachTGLoop env inst nodeName ts st k
      (t :: r.1, r.2)
    else
      match getNode nodeName st.nodes with
      | none => (t :: ts, k, st, false)
      | some latest =>
        let st1 : St :=
          { st with
            nodes := setNode { latest with labels := aset excludeBalancerKey "true" latest.labels } st.nodes,
            events := st.events ++ [Event.nodeWrite nodeName] }
        let st2 : St := { st1 with events := st1.events ++ [Event.deregTG t.arn t.port inst] }
        if env.tgDeregFail t.arn t.port then
          (t :: ts, k, st2, false)
        else
          let r := detachTGLoop env inst nodeName ts st2 (k + 1)
          ({ t with detached := true } :: r.1, r.2)

/-- The per-load-balancer loop of detachNodes: deregister each live entry and
flip it, stopping with an error on the first failed call. -/
def detachCLBLoop (env : Env) (inst : String) :
    List AwsLoadBalancer → St → Nat → List AwsLoadBalancer × Nat × St × Bool
  | [], st, k => ([], k, st, true)
  | l :: ls, st, k =>
    if l.detached then
      let r := detachCLBLoop env inst ls st k
      (l :: r.1, r.2)
    else
      let st1 : St := { st with events := st.events ++ [Event.deregCLB l.name inst] }
      if env.clbDeregFail l.name then
        (l :: ls, k, st1, false)
      else
        let r := detachCLBLoop env inst ls st1 (k + 1)
        ({ l with detached := true } :: r.1, r.2)

/-- The per-node body of detachNodes: a missing instance label is an error;
a missing attachment record is logged and the node skipped; otherwise run
both entry loops and, when at least one entry flipped, persist the updated
record in a single combined write.  Returns the state, the processed count
and the success flag. -/
def detachNodesAux (env : Env) : List Node → St → Nat → St × Nat × Bool
  | [], st, processed => (st, processed, true)
  | node :: rest, st, processed =>
    match getInstanceID node with
    | none => (st, processed, false)
    | some inst =>
      match alookup node.name st.records with
      | none => detachNodesAux env rest st processed
      | some spec =>
        match detachTGLoop env inst node.name spec.awsTargets st 0 with
        | (_, _, st1, false) => (st1, processed, false)
        | (tgs', k1, st1, true) =>
          match detachCLBLoop env inst spec.awsLoadBalancers st1 k1 with
          | (_, _, st2, false) => (st2, processed, false)
          | (lbs', k2, st2, true) =>
            if 0 < k2 then
              let spec' : AttachmentSpec :=
                { spec with awsTargets := tgs', awsLoadBalancers := lbs' }
              detachNodesAux env rest
                { st2 with
                  records := aset node.name spec' st2.records,
                  events := st2.events ++ [Event.recordWrite node.name] }
                (processed + 1)
            else
              detachNodesAux env rest st2 processed

/-- NodeAttachments.detachNodes: returns the final state, the progressed
flag (`processed > 0` on success, false on error) and the success flag. -/
def detachNodes (env : Env) (nodes : List Node) (st : St) : St × Bool × Bool :=
  match detachNodesAux env nodes st 0 with
  | (st', processed, true) => (st', decide (0 < processed), true)
  | (st', _, false) => (st', false, false)

/-! ## Attach orchestrator -/

/-- Modelled from the spec: the record-based `NodeAttachments.attachNodes` is
absent from the source tree (only its call sites in the reconciler are
present); spec section 4.4 describes it as the mirror of `detachNodes`.  The
per-target loop iterates entries with detached = true, first removes the
exclude-from-balancer node label and persists that node update, then
re-registers the (arn, port) target, flipping the entry to detached = false
in memory on success and stopping with an error on the first failure. -/
def attachTGLoop (env : Env) (inst nodeName : String) :
    List AwsTarget → St → Nat → List AwsTarget × Nat × St × Bool
  | [], st, k => ([], k, st, true)
  | t :: ts, st, k =>
    if !t.detached then
      let r := attachTGLoop env inst nodeName ts st k
      (t :: r.1, r.2)
    else
      match getNode nodeName st.nodes with
      | none => (t :: ts, k, st, false)
      | some latest =>
        let st1 : St :=
          { st with
            nodes := setNode { latest with labels := adel excludeBalancerKey latest.labels } st.nodes,
            events := st.events ++ [Event.nodeWrite nodeName] }
        let st2 : St := { st1 with events := st1.events ++ [Event.regTG t.arn t.port inst] }
        if env.tgRegFail t.arn t.port then
          (t :: ts, k, st2, false)
        else
          let r := attachTGLoop env inst nodeName ts st2 (k + 1)
          ({ t with detached := false } :: r.1, r.2)

/-- Modelled from the spec: the load-balancer loop of the missing
`NodeAttachments.attachNodes`, mirroring `detachCLBLoop` — re-register each
entry with detached = true and flip it back to false. -/
def attachCLBLoop (env : Env) (inst : String) :
    List AwsLoadBalancer → St → Nat → List AwsLoadBalancer × Nat × St × Bool
  | [], st, k => ([], k, st, true)
  | l :: ls, st, k =>
    if !l.detached then
      let r := attachCLBLoop env inst ls st k
      (l :: r.1, r.2)
    else
      let st1 : St := { st with events := st.events ++ [Event.regCLB l.name inst] }
      if env.clbRegFail l.name then
        (l :: ls, k, st1, false)
      else
        let r := attachCLBLoop env inst ls st1 (k + 1)
        ({ l with detached := false } :: r.1, r.2)

/-- Modelled from the spec: the per-node body of the missing
`NodeAttachments.attachNodes`, mirroring `detachNodesAux`: a missing instance
label is an error, a missing attachment record skips the node, and the
updated record is persisted in one write when at least one entry flipped. -/
def attachNodesAux (env : Env) : List Node → St → St × Bool
  | [], st => (st, true)
  | node :: rest, st =>
    match getInstanceID node with
    | none => (st, false)
    | some inst =>
      match alookup node.name st.records with
      | none => attachNodesAux env rest st
      | some spec =>
        match attachTGLoop env inst node.name spec.awsTargets st 0 with
        | (_, _, st1, false) => (st1, false)
        | (tgs', k1, st1, true) =>
          match attachCLBLoop env inst spec.awsLoadBalancers st1 k1 with
          | (_, _, st2, false) => (st2, false)
          | (lbs', k2, st2, true) =>
            if 0 < k2 then
              let spec' : AttachmentSpec :=
                { spec with awsTargets := tgs', awsLoadBalancers := lbs' }
              attachNodesAux env rest
                { st2 with
                  records := aset node.name spec' st2.records,
                  events := st2.events ++ [Event.recordWrite node.name] }
            else
              attachNodesAux env rest st2

/-- Modelled from the spec: `NodeAttachments.attachNodes`, contract
`attach(node) -> error`; returns the state and the success flag. -/
def attachNodes (env : Env) (nodes : List Node) (st : St) : St × Bool :=
  attachNodesAux env nodes st

/-! ## Resolution (aws.go) -/

/-- The inner accumulation of getIdToTGs over the health descriptions of one
target group: each (instance, port) description is pushed at the two-level
key (instance, arn). -/
def addHealth (arn : String) :
    List (String × Option Int) → List (String × List (String × List (Option Int))) →
    List (String × List (String × List (Option Int)))
  | [], m => m
  | d :: ds, m => addHealth arn ds (apush2 d.1 arn d.2 m)

/-- The fold of getIdToTGs over the described target groups, threading the
two-level map in description order. -/
def getIdToTDsAux :
    List TG → List (String × List (String × List (Option Int))) →
    List (String × List (String × List (Option Int)))
  | [], m => m
  | tg :: tgs, m => getIdToTDsAux tgs (addHealth tg.arn tg.health m)

/-- getIdToTGs, second component: the instance-to-(arn-to-target
descriptions) map built by describing every target group's health.  The
source does not filter this map by the requested instance ids. -/
def getIdToTDs (tgs : List TG) : List (String × List (String × List (Option Int))) :=
  getIdToTDsAux tgs []

/-- The inner accumulation of getIdToCLBs over the registered instances of
one load balancer: the name is appended under each instance among the
requested ids. -/
def addCLBInstances (ids : List String) (name : String) :
    List String → List (String × List String) → List (String × List String)
  | [], m => m
  | i :: is, m =>
    addCLBInstances ids name is (if ids.contains i then apush i name m else m)

/-- The fold of getIdToCLBs over the described load balancers. -/
def getIdToCLBsAux (ids : List String) :
    List CLB → List (String × List String) → List (String × List String)
  | [], m => m
  | clb :: rest, m => getIdToCLBsAux ids rest (addCLBInstances ids clb.name clb.instances m)

/-- getIdToCLBs: for every described classic load balancer, append its name
under each of its registered instances that is among the requested ids. -/
def getIdToCLBs (ids : List String) (clbs : List CLB) : List (String × List String) :=
  getIdToCLBsAux ids clbs []

/-! ## Attachment cache (cache.go, NodeAttachments.cacheNodeAttachments) -/

/-- The first loop of cacheNodeAttachments: collect the (node name, instance
id) pairs and the instance ids of the nodes not yet cached; a missing
instance label is an error.  Collection order is irrelevant downstream: the
pair list is read only through `alookup` and the id list only through
`contains` and emptiness. -/
def collectUncached : List Node → Option (List (String × String) × List String)
  | [] => some ([], [])
  | node :: rest =>
    if Cached node then collectUncached rest
    else
      match getInstanceID node with
      | none => none
      | some inst =>
        match collectUncached rest with
        | none => none
        | some (m, ids) => some ((node.name, inst) :: m, inst :: ids)

/-- The record-building step of cacheNodeAttachments over the resolved
target descriptions of one instance: one AwsTarget per (arn, port) pair,
initially not detached. -/
def buildTargets : List (String × List (Option Int)) → List AwsTarget
  | [] => []
  | (arn, ports) :: rest =>
    ports.map (fun p => { arn := arn, port := p, detached := false }) ++ buildTargets rest

/-- The record-building step of cacheNodeAttachments over the resolved load
balancers of one instance: one AwsLoadBalancer per name, initially not
detached. -/
def buildLoadBalancers (clbs : List String) : List AwsLoadBalancer :=
  clbs.map (fun c => { name := c, detached := false })

/-- The second loop of cacheNodeAttachments: for every passed node (the
source iterates all of them, cached or not), build the attachment spec from
the resolved maps (a node absent from the pair list resolves through the
empty instance id, the Go zero value), create or update the record, then
read the latest node and mark it with the cached label and — notably — the
detaching annotation set to "true", in one node write. -/
def cacheLoop (n2i : List (String × String))
    (clbsMap : List (String × List String))
    (tdsMap : List (String × List (String × List (Option Int)))) :
    List Node → St → St × Bool
  | [], st => (st, true)
  | node :: rest, st =>
    let inst := (alookup node.name n2i).getD ""
    let spec : AttachmentSpec :=
      { nodeName := node.name,
        awsTargets := buildTargets ((alookup inst tdsMap).getD []),
        awsLoadBalancers := buildLoadBalancers ((alookup inst clbsMap).getD []) }
    let st1 : St :=
      { st with
        records := aset node.name spec st.records,
        events := st.events ++ [Event.recordWrite node.name] }
    match getNode node.name st1.nodes with
    | none => (st1, false)
    | some latest =>
      let latest' : Node :=
        { latest with
          labels := aset NodeLabelKeyCached "true" latest.labels,
          annotations := aset NodeAnnotationKeyDetaching "true" latest.annotations }
      cacheLoop n2i clbsMap tdsMap rest
        { st1 with
          nodes := setNode latest' st1.nodes,
          events := st1.events ++ [Event.nodeWrite node.name] }

/-- NodeAttachments.cacheNodeAttachments: collect the uncached nodes, stop
successfully when there is nothing to resolve, resolve load balancers and
target groups when the respective integrations are on (resolution failures
abort with an error), then run the record/label loop. -/
def cacheNodeAttachments (cfg : Config) (env : Env) (nodes : List Node) (st : St) : St × Bool :=
  match collectUncached nodes with
  | none => (st, false)
  | some (n2i, ids) =>
    if ids.isEmpty then (st, true)
    else
      match (if shouldHandleCLBs cfg then
               (if env.describeCLBFail then none else some (getIdToCLBs ids env.clbs))
             else some []) with
      | none => (st, false)
      | some clbsMap =>
        match (if shouldHandleTargetGroups cfg then
                 (if env.describeTGFail
                     || env.targetGroups.any (fun tg => env.describeHealthFail tg.arn)
                  then none else some (getIdToTDs env.targetGroups))
               else some []) with
        | none => (st, false)
        | some tdsMap => cacheLoop n2i clbsMap tdsMap nodes st

/-- NodeAttachments.cacheAllNodeAttachments: list every node in the store
and cache them all. -/
def cacheAllNodeAttachments (cfg : Config) (env : Env) (st : St) : St × Bool :=
  cacheNodeAttachments cfg env st.nodes st

/-! ## Reconciler (node_controller.go, NodeController.Reconcile) -/

/-- The detachNode closure of Reconcile: skip when attachment is unmanaged;
in dynamic mode first cache the node (errors only logged); then run the
detach orchestrator, surfacing its error. -/
def detachNodeStep (cfg : Config) (env : Env) (node : Node) (manage : Bool) (s : St) :
    St × Bool :=
  if !manage then (s, true)
  else
    let s1 := if dynamicMode cfg then (cacheNodeAttachments cfg env [node] s).1 else s
    match detachNodes env [node] s1 with
    | (s2, _, ok) => (s2, ok)

/-- The deleteDSPods closure of Reconcile: skipped when the node carries the
requires-detached annotation; otherwise delete the daemonset pods, an
external effect abstracted here to its success flag and event. -/
def deleteDSPodsStep (env : Env) (node : Node) (s : St) : St × Bool :=
  if nodeRequireDetached node then (s, true)
  else if env.deletePodsFail then (s, false)
  else ({ s with events := s.events ++ [Event.podsDelete node.name] }, true)

/-- The detachAll closure of Reconcile: detach, then delete daemonset pods,
stopping at the first error. -/
def detachAllStep (cfg : Config) (env : Env) (node : Node) (manage : Bool) (s : St) :
    St × Bool :=
  match detachNodeStep cfg env node manage s with
  | (s1, false) => (s1, false)
  | (s1, true) => deleteDSPodsStep env node s1

/-- The attachNode closure of Reconcile: skip when attachment is unmanaged,
otherwise run the attach orchestrator. -/
def attachNodeStep (env : Env) (node : Node) (manage : Bool) (s : St) : St × Bool :=
  if !manage then (s, true) else attachNodes env [node] s

/-- The node update written on the detaching transition: the detaching
annotation set to "true", the detachment timestamp set to the current time,
the attachment timestamp removed, a NodeBeingDetached condition appended
(with status False, as in the source), and the detaching taint applied. -/
def detachPhaseUpdate (cfg : Config) (env : Env) (node : Node) : Node :=
  taintNode
    { node with
      annotations :=
        adel NodeAnnotationKeyAttachmentTimestamp
          (aset NodeAnnotationKeyDetachmentTimestamp env.now
            (aset NodeAnnotationKeyDetaching "true" node.annotations)),
      conditions := node.conditions ++ [{ condType := "NodeBeingDetached", status := "False" }] }
    cfg.name

/-- The node update written on the re-attaching transition: the detaching
annotation set to "false", the attachment timestamp set to the current time,
the detachment timestamp removed, a NodeBeingDetached condition with status
False appended, the cached label set to "false", and the detaching taint
removed. -/
def attachPhaseUpdate (env : Env) (node : Node) : Node :=
  untaintNode
    { node with
      annotations :=
        adel NodeAnnotationKeyDetachmentTimestamp
          (aset NodeAnnotationKeyAttachmentTimestamp env.now
            (aset NodeAnnotationKeyDetaching "false" node.annotations)),
      conditions := node.conditions ++ [{ condType := "NodeBeingDetached", status := "False" }],
      labels := aset NodeLabelKeyCached "false" node.labels }

/-- The outcome of one reconciliation: the resulting store state, the
updated controller `synced` flag, and whether an error was returned. -/
structure ReconcileOut where
  st : St
  synced : Bool
  err : Bool
  deriving DecidableEq

/-- NodeController.Reconcile for a node request: fetch the node (absence is
handled, not an error); when attachment is managed and in static mode run
the startup cache-all (once, flipping `synced`) and the per-node cache, both
with errors only logged; skip master nodes; classify the fetched node and
run the being-detached / schedulable state machine, writing the detach or
attach phase update in a single node update after the respective
orchestration steps succeeded. -/
def Reconcile (cfg : Config) (env : Env) (st : St) (reqName : String) : ReconcileOut :=
  match getNode reqName st.nodes with
  | none => { st := st, synced := cfg.synced, err := false }
  | some node =>
    let manage := cfg.awsEnabled && (getInstanceID node).isSome
    let stSynced :=
      if manage && !cfg.synced && staticMode cfg then
        ((cacheAllNodeAttachments cfg env st).1, true)
      else (st, cfg.synced)
    let st2 :=
      if manage && staticMode cfg && !Cached node then
        (cacheNodeAttachments cfg env [node] stSynced.1).1
      else stSynced.1
    if isMasterNode node then { st := st2, synced := stSynced.2, err := false }
    else if nodeBeingDetached node then
      if nodeIsSchedulable node then
        match attachNodeStep env node manage st2 with
        | (st3, false) => { st := st3, synced := stSynced.2, err := true }
        | (st3, true) =>
          let updated := attachPhaseUpdate env node
          { st := { st3 with
                    nodes := setNode updated st3.nodes,
                    events := st3.events ++ [Event.nodeWrite node.name] },
            synced := stSynced.2, err := false }
      else
        match detachAllStep cfg env node manage st2 with
        | (st3, ok) => { st := st3, synced := stSynced.2, err := !ok }
    else if nodeIsSchedulable node then
      { st := st2, synced := stSynced.2, err := false }
    else
      match detachAllStep cfg env node manage st2 with
      | (st3, false) => { st := st3, synced := stSynced.2, err := true }
      | (st3, true) =>
        let updated := detachPhaseUpdate cfg env node
        { st := { st3 with
                  nodes := setNode updated st3.nodes,
                  events := st3.events ++ [Event.nodeWrite node.name] },
          synced := stSynced.2, err := false }

/-! ## The unschedulability formula as the spec words it -/

/-- The unschedulability test as claim C3 words it, for comparison with the
source's `nodeIsSchedulable`: the explicit flag, or a to-be-deleted taint,
or any taint whose key is not in the ignore list (the controller's own
detaching taint and the well-known node-lifecycle taints), or the explicit
requires-detached annotation. -/
def claimUnschedulable (node : Node) : Bool :=
  node.unschedulable
  || node.taints.any (fun t => t.key = NodeTaintToBeDeletedByCA)
  || node.taints.any (fun t =>
       !(strHasPfx NodeTaintKeyDetaching t.key || strHasPfx NodeTaintKeyK8sNode t.key))
  || node.annotations.any (fun kv => kv.1 = NodeAnnotationKeyDetached)

/-! ## Concrete fixtures for witnesses and counterexamples -/

/-- A failure-free environment with an empty registry. -/
def envOK : Env :=
  { tgDeregFail := fun _ _ => false, clbDeregFail := fun _ => false,
    tgRegFail := fun _ _ => false, clbRegFail := fun _ => false,
    targetGroups := [], clbs := [], describeTGFail := false,
    describeHealthFail := fun _ => false, describeCLBFail := false,
    deletePodsFail := false, now := "2020-01-01T00:00:00Z" }

/-- An environment whose registry fails deregistration for the target group
"tg2" only. -/
def envTG2Fails : Env := { envOK with tgDeregFail := fun arn _ => arn = "tg2" }

/-- An environment whose registry reports the instance "i-9" registered with
target group "tg1" both at the default port and at port 8080. -/
def envTwoPorts : Env :=
  { envOK with targetGroups := [{ arn := "tg1", health := [("i-9", none), ("i-9", some 8080)] }] }

/-- The static-mode configuration with every integration managed and the
startup sync already done. -/
def cfgStatic : Config :=
  { awsEnabled := true, albIngress := false, dynamicNLB := false, dynamicCLB := false,
    staticTGs := true, staticCLBs := true, name := "node-detacher", synced := true }

/-- An unschedulable, already-cached worker node with an instance label. -/
def node1 : Node :=
  { name := "n1", labels := [(NodeLabelInstanceID, "i-1"), (NodeLabelKeyCached, "true")],
    annotations := [], taints := [], unschedulable := true, conditions := [] }

/-- A record for node1 with three live target-group entries. -/
def rec3 : AttachmentSpec :=
  { nodeName := "n1",
    awsTargets := [{ arn := "tg1", port := none, detached := false },
                   { arn := "tg2", port := none, detached := false },
                   { arn := "tg3", port := none, detached := false }],
    awsLoadBalancers := [] }

/-- The store holding node1 and its three-entry record. -/
def stRec3 : St := { nodes := [node1], records := [("n1", rec3)], events := [] }

/-- A fully detached record for node1. -/
def recDone : AttachmentSpec :=
  { nodeName := "n1",
    awsTargets := [{ arn := "tg1", port := none, detached := true },
                   { arn := "tg2", port := some 8080, detached := true }],
    awsLoadBalancers := [{ name := "clb1", detached := true }] }

/-- The store holding node1 and its fully detached record. -/
def stDone : St := { nodes := [node1], records := [("n1", recDone)], events := [] }

/-- A record for node1 with every entry still attached. -/
def recLive : AttachmentSpec :=
  { nodeName := "n1",
    awsTargets := [{ arn := "tg1", port := none, detached := false },
                   { arn := "tg2", port := some 8080, detached := false }],
    awsLoadBalancers := [{ name := "clb1", detached := false }] }

/-- The store holding node1 and its fully attached record. -/
def stLive : St := { nodes := [node1], records := [("n1", recLive)], events := [] }

/-- The store holding node1 and no attachment record at all. -/
def stNoRec : St := { nodes := [node1], records := [], events := [] }

/-- A second labeled node, with no record either. -/
def node7 : Node :=
  { name := "n7", labels := [(NodeLabelInstanceID, "i-7")],
    annotations := [], taints := [], unschedulable := true, conditions := [] }

/-- The store holding node7 and no attachment record. -/
def stNoRec7 : St := { nodes := [node7], records := [], events := [] }

/-- A node whose only taint is a node-lifecycle taint from the ignore
list. -/
def nodeK8sTaint : Node :=
  { name := "k1", labels := [], annotations := [],
    taints := [{ key := "node.kubernetes.io/not-ready", value := "", effect := "NoExecute" }],
    unschedulable := false, conditions := [] }

/-- A node with the explicit flag false and the cluster-autoscaler
to-be-deleted taint present. -/
def nodeTbd : Node :=
  { name := "t1", labels := [], annotations := [],
    taints := [{ key := NodeTaintToBeDeletedByCA, value := "", effect := "NoSchedule" }],
    unschedulable := false, conditions := [] }

/-- A master node carrying an instance label, not yet cached. -/
def nodeMaster : Node :=
  { name := "m1", labels := [(NodeLabelInstanceID, "i-2")], annotations := [],
    taints := [{ key := masterTaintKey, value := "", effect := "NoSchedule" }],
    unschedulable := false, conditions := [] }

/-- The store holding only the master node. -/
def stMaster : St := { nodes := [nodeMaster], records := [], events := [] }

/-- A schedulable node marked being-detached through the detaching
annotation, still cached, with the repel taint present. -/
def nodeBD : Node :=
  { name := "n1", labels := [(NodeLabelInstanceID, "i-1"), (NodeLabelKeyCached, "true")],
    annotations := [(NodeAnnotationKeyDetaching, "true"),
                    (NodeAnnotationKeyDetachmentTimestamp, "2019-12-31T23:59:59Z")],
    taints := [{ key := NodeTaintKeyDetaching, value := "node-detacher", effect := "NoSchedule" }],
    unschedulable := false, conditions := [] }

/-- The store holding nodeBD and its fully detached record. -/
def stBD : St := { nodes := [nodeBD], records := [("n1", recDone)], events := [] }

/-- A fresh schedulable worker node, not yet cached, whose instance is
"i-9". -/
def node9 : Node :=
  { name := "n9", labels := [(NodeLabelInstanceID, "i-9")], annotations := [],
    taints := [], unschedulable := false, conditions := [] }

/-- The store holding only node9, with no record. -/
def st9 : St := { nodes := [node9], records := [], events := [] }

/-! ## Association-list and store lemmas -/

theorem alookup_aset_self (k : String) (v : α) (l : List (String × α)) :
    alookup k (aset k v l) = some v := by
  induction l with
  | nil => simp [aset, alookup]
  | cons kv rest ih =>
    by_cases h : kv.1 = k
    · simp [aset, h, alookup]
    · simp [aset, h, alookup, ih]

theorem alookup_aset_ne (k k' : String) (hne : k' ≠ k) (v : α) (l : List (String × α)) :
    alookup k' (aset k v l) = alookup k' l := by
  have hkk : k ≠ k' := fun h => hne h.symm
  induction l with
  | nil => simp [aset, alookup, hkk]
  | cons kv rest ih =>
    obtain ⟨k1, v1⟩ := kv
    by_cases h : k1 = k
    · have h1 : k1 ≠ k' := by rw [h]; exact hkk
      simp [aset, h, alookup, hkk, h1]
    · by_cases h' : k1 = k'
      · simp [aset, h, alookup, h', hkk, hne]
      · simp [aset, h, alookup, h', ih]

theorem alookup_adel_self (k : String) (l : List (String × α)) :
    alookup k (adel k l) = none := by
  induction l with
  | nil => simp [adel, alookup]
  | cons kv rest ih =>
    by_cases h : kv.1 = k
    · simp [adel, h, ih]
    · simp [adel, h, alookup, ih]

theorem alookup_adel_ne (k k' : String) (hne : k' ≠ k) (l : List (String × α)) :
    alookup k' (adel k l) = alookup k' l := by
  have hkk : k ≠ k' := fun h => hne h.symm
  induction l with
  | nil => simp [adel]
  | cons kv rest ih =>
    obtain ⟨k1, v1⟩ := kv
    by_cases h : k1 = k
    · have h1 : k1 ≠ k' := by rw [h]; exact hkk
      simp [adel, h, alookup, h1, ih, hkk]
    · by_cases h' : k1 = k'
      · simp [adel, h, alookup, h', hkk, hne]
      · simp [adel, h, alookup, h', ih]

theorem mem_of_alookup {l : List (String × α)} {k : String} {v : α}
    (h : alookup k l = some v) : (k, v) ∈ l := by
  induction l with
  | nil => simp [alookup] at h
  | cons kv rest ih =>
    obtain ⟨k1, v1⟩ := kv
    by_cases hk : k1 = k
    · simp only [alookup, hk, if_true, Option.some.injEq] at h
      subst hk
      subst h
      exact List.mem_cons_self _ _
    · simp only [alookup, hk, if_false] at h
      exact List.mem_cons_of_mem _ (ih h)

theorem getNode_name {ns : List Node} {nm : String} {m : Node}
    (h : getNode nm ns = some m) : m.name = nm := by
  induction ns with
  | nil => simp [getNode] at h
  | cons a rest ih =>
    by_cases ha : a.name = nm
    · simp only [getNode, ha, if_true, Option.some.injEq] at h
      rw [← h]; exact ha
    · simp only [getNode, ha, if_false] at h
      exact ih h

theorem getNode_map_setNode (f : Node → β) :
    ∀ (ns : List Node) (m m' : Node), getNode m'.name ns = some m → f m' = f m →
    ∀ x, (getNode x (setNode m' ns)).map f = (getNode x ns).map f := by
  intro ns
  induction ns with
  | nil => intro m m' h; simp [getNode] at h
  | cons a rest ih =>
    intro m m' h hfm x
    by_cases ha : a.name = m'.name
    · simp only [getNode, ha, if_true, Option.some.injEq] at h
      simp only [setNode, ha, if_true]
      by_cases hx : a.name = x
      · have hx' : m'.name = x := ha ▸ hx
        simp [getNode, hx, hx', hfm, ← h]
      · have hx' : ¬ m'.name = x := fun hh => hx (ha ▸ hh)
        simp [getNode, hx, hx']
    · simp only [getNode, ha, if_false] at h
      simp only [setNode, ha, if_false]
      by_cases hx : a.name = x
      · simp [getNode, hx]
      · simp only [getNode, hx, if_false]
        exact ih m m' h hfm x

theorem getNode_isSome_setNode (ns : List Node) (m m' : Node)
    (h : getNode m'.name ns = some m) :
    ∀ x, (getNode x (setNode m' ns)).isSome = (getNode x ns).isSome := by
  intro x
  have hmap := getNode_map_setNode (fun _ => true) ns m m' h rfl x
  cases h1 : getNode x (setNode m' ns) <;> cases h2 : getNode x ns <;>
    simp_all

theorem getNode_setNode_self {ns : List Node} {m : Node} (m' : Node)
    (h : getNode m'.name ns = some m) :
    getNode m'.name (setNode m' ns) = some m' := by
  induction ns with
  | nil => simp [getNode] at h
  | cons a rest ih =>
    by_cases ha : a.name = m'.name
    · simp [setNode, ha, getNode]
    · simp only [getNode, ha, if_false] at h
      simp [setNode, ha, getNode, ih h]

theorem getLast?_append_singleton (l : List α) (a : α) :
    (l ++ [a]).getLast? = some a := by
  induction l with
  | nil => rfl
  | cons b rest ih =>
    rw [List.cons_append, List.getLast?_cons, ih]
    cases rest <;> simp_all

theorem any_pair_of_alookup {l : List (String × String)} {k v : String}
    (h : alookup k l = some v) :
    l.any (fun kv => kv.1 = k && kv.2 = v) = true := by
  rw [List.any_eq_true]
  exact ⟨(k, v), mem_of_alookup h, by simp⟩

/-! ## Detach-loop lemmas -/

/-- Every entry of the record is marked detached. -/
def AttachmentSpec.fullyDetached (s : AttachmentSpec) : Bool :=
  s.awsTargets.all (·.detached) && s.awsLoadBalancers.all (·.detached)

theorem detachTrue_id {t : AwsTarget} (h : t.detached = true) :
    ({ t with detached := true } : AwsTarget) = t := by
  cases t; simp_all

theorem detachTGLoop_all_detached (env : Env) (inst nm : String) :
    ∀ (ts : List AwsTarget) (st : St) (k : Nat), ts.all (·.detached) = true →
    detachTGLoop env inst nm ts st k = (ts, k, st, true) := by
  intro ts
  induction ts with
  | nil => intro st k _; rfl
  | cons t rest ih =>
    intro st k h
    simp only [List.all_cons, Bool.and_eq_true] at h
    simp [detachTGLoop, h.1, ih st k h.2]

theorem detachCLBLoop_all_detached (env : Env) (inst : String) :
    ∀ (ls : List AwsLoadBalancer) (st : St) (k : Nat), ls.all (·.detached) = true →
    detachCLBLoop env inst ls st k = (ls, k, st, true) := by
  intro ls
  induction ls with
  | nil => intro st k _; rfl
  | cons l rest ih =>
    intro st k h
    simp only [List.all_cons, Bool.and_eq_true] at h
    simp [detachCLBLoop, h.1, ih st k h.2]

theorem detachTGLoop_facts (env : Env) (inst nm : String) :
    ∀ (ts : List AwsTarget) (st : St) (k : Nat) ts' k' st' ok,
    detachTGLoop env inst nm ts st k = (ts', k', st', ok) →
    st'.records = st.records
    ∧ st'.events.countP (fun e => e.isRecordWrite) = st.events.countP (fun e => e.isRecordWrite)
    ∧ k ≤ k'
    ∧ (getNode nm st'.nodes).isSome = (getNode nm st.nodes).isSome
    ∧ (ok = true → ts'.all (·.detached) = true ∧ (k' = k → st' = st ∧ ts' = ts)) := by
  intro ts
  induction ts with
  | nil =>
    intro st k ts' k' st' ok h
    simp only [detachTGLoop, Prod.mk.injEq] at h
    obtain ⟨rfl, rfl, rfl, rfl⟩ := h
    refine ⟨rfl, rfl, le_refl _, rfl, ?_⟩
    intro _
    exact ⟨rfl, fun _ => ⟨rfl, rfl⟩⟩
  | cons t rest ih =>
    intro st k ts' k' st' ok h
    by_cases ht : t.detached
    · rcases hrec : detachTGLoop env inst nm rest st k with ⟨ts2, k2, st2, ok2⟩
      simp only [detachTGLoop, ht, if_true, hrec, Prod.mk.injEq] at h
      obtain ⟨rfl, rfl, rfl, rfl⟩ := h
      obtain ⟨hr, hev, hk, hs, hok⟩ := ih _ _ _ _ _ _ hrec
      refine ⟨hr, hev, hk, hs, ?_⟩
      intro hok2
      obtain ⟨hall, hkeq⟩ := hok hok2
      refine ⟨by simp [ht, hall], fun hke => ?_⟩
      obtain ⟨h1, h2⟩ := hkeq hke
      exact ⟨h1, by rw [h2]⟩
    · cases hg : getNode nm st.nodes with
      | none =>
        simp only [detachTGLoop, ht, if_false, hg, Prod.mk.injEq] at h
        obtain ⟨rfl, rfl, rfl, rfl⟩ := h
        refine ⟨rfl, rfl, le_refl _, by rw [hg], ?_⟩
        intro hcontra
        simp at hcontra
      | some latest =>
        have hname : latest.name = nm := getNode_name hg
        have hpres := getNode_isSome_setNode st.nodes latest
          { latest with labels := aset excludeBalancerKey "true" latest.labels }
          (by simpa [hname] using hg) nm
        by_cases hf : env.tgDeregFail t.arn t.port
        · simp only [detachTGLoop, ht, if_false, hg, hf, if_true, Prod.mk.injEq] at h
          obtain ⟨rfl, rfl, rfl, rfl⟩ := h
          refine ⟨rfl, ?_, le_refl _, by simp only [hpres, hg], ?_⟩
          · simp [List.countP_append, Event.isRecordWrite]
          · intro hcontra
            simp at hcontra
        · rcases hrec : detachTGLoop env inst nm rest
            { st with
              nodes := setNode { latest with labels := aset excludeBalancerKey "true" latest.labels } st.nodes,
              events := (st.events ++ [Event.nodeWrite nm]) ++ [Event.deregTG t.arn t.port inst] }
            (k + 1) with ⟨ts2, k2, st3, ok2⟩
          simp only [detachTGLoop, ht, if_false, hg, hf] at h
          rw [hrec] at h
          simp only [Prod.mk.injEq] at h
          obtain ⟨rfl, rfl, rfl, rfl⟩ := h
          obtain ⟨hr, hev, hk, hs, hok⟩ := ih _ _ _ _ _ _ hrec
          refine ⟨by simpa using hr, ?_, by omega, ?_, ?_⟩
          · rw [hev]
            simp [List.countP_append, Event.isRecordWrite]
          · simp only at hs
            rw [hs]
            simp only [hpres, hg]
          · intro hok2
            obtain ⟨hall, _⟩ := hok hok2
            refine ⟨by simp [hall], fun hke => absurd hke (by omega)⟩

theorem detachCLBLoop_facts (env : Env) (inst : String) :
    ∀ (ls : List AwsLoadBalancer) (st : St) (k : Nat) ls' k' st' ok,
    detachCLBLoop env inst ls st k = (ls', k', st', ok) →
    st'.records = st.records
    ∧ st'.nodes = st.nodes
    ∧ st'.events.countP (fun e => e.isRecordWrite) = st.events.countP (fun e => e.isRecordWrite)
    ∧ k ≤ k'
    ∧ (ok = true → ls'.all (·.detached) = true ∧ (k' = k → st' = st ∧ ls' = ls)) := by
  intro ls
  induction ls with
  | nil =>
    intro st k ls' k' st' ok h
    simp only [detachCLBLoop, Prod.mk.injEq] at h
    obtain ⟨rfl, rfl, rfl, rfl⟩ := h
    refine ⟨rfl, rfl, rfl, le_refl _, ?_⟩
    intro _
    exact ⟨rfl, fun _ => ⟨rfl, rfl⟩⟩
  | cons l rest ih =>
    intro st k ls' k' st' ok h
    by_cases hl : l.detached
    · rcases hrec : detachCLBLoop env inst rest st k with ⟨ls2, k2, st2, ok2⟩
      simp only [detachCLBLoop, hl, if_true, hrec, Prod.mk.injEq] at h
      obtain ⟨rfl, rfl, rfl, rfl⟩ := h
      obtain ⟨hr, hn, hev, hk, hok⟩ := ih _ _ _ _ _ _ hrec
      refine ⟨hr, hn, hev, hk, ?_⟩
      intro hok2
      obtain ⟨hall, hkeq⟩ := hok hok2
      refine ⟨by simp [hl, hall], fun hke => ?_⟩
      obtain ⟨h1, h2⟩ := hkeq hke
      exact ⟨h1, by rw [h2]⟩
    · by_cases hf : env.clbDeregFail l.name
      · simp only [detachCLBLoop, hl, if_false, hf, if_true, Prod.mk.injEq] at h
        obtain ⟨rfl, rfl, rfl, rfl⟩ := h
        refine ⟨rfl, rfl, ?_, le_refl _, ?_⟩
        · simp [List.countP_append, Event.isRecordWrite]
        · intro hcontra
          simp at hcontra
      · rcases hrec : detachCLBLoop env inst rest
          { st with events := st.events ++ [Event.deregCLB l.name inst] } (k + 1)
          with ⟨ls2, k2, st3, ok2⟩
        simp only [detachCLBLoop, hl, if_false, hf] at h
        rw [hrec] at h
        simp only [Prod.mk.injEq] at h
        obtain ⟨rfl, rfl, rfl, rfl⟩ := h
        obtain ⟨hr, hn, hev, hk, hok⟩ := ih _ _ _ _ _ _ hrec
        refine ⟨by simpa using hr, by simpa using hn, ?_, by omega, ?_⟩
        · rw [hev]
          simp [List.countP_append, Event.isRecordWrite]
        · intro hok2
          obtain ⟨hall, _⟩ := hok hok2
          refine ⟨by simp [hall], fun hke => absurd hke (by omega)⟩

/-! ## detachNodes-level lemmas -/

theorem lbDetachTrue_id {l : AwsLoadBalancer} (h : l.detached = true) :
    ({ l with detached := true } : AwsLoadBalancer) = l := by
  cases l; simp_all

theorem map_detachTrue_of_all {ts : List AwsTarget} (h : ts.all (·.detached) = true) :
    ts.map (fun t => { t with detached := true }) = ts := by
  induction ts with
  | nil => rfl
  | cons t rest ih =>
    simp only [List.all_cons, Bool.and_eq_true] at h
    simp only [List.map_cons, ih h.2, detachTrue_id h.1]

theorem map_lbDetachTrue_of_all {ls : List AwsLoadBalancer} (h : ls.all (·.detached) = true) :
    ls.map (fun l => { l with detached := true }) = ls := by
  induction ls with
  | nil => rfl
  | cons l rest ih =>
    simp only [List.all_cons, Bool.and_eq_true] at h
    simp only [List.map_cons, ih h.2, lbDetachTrue_id h.1]

theorem detachNodes_fullyDetached_noop (env : Env) (node : Node) (inst : String)
    (spec : AttachmentSpec) (st : St)
    (hinst : getInstanceID node = some inst)
    (hrec : alookup node.name st.records = some spec)
    (hfull : spec.fullyDetached = true) :
    detachNodes env [node] st = (st, false, true) := by
  have h' := hfull
  simp only [AttachmentSpec.fullyDetached, Bool.and_eq_true] at h'
  simp [detachNodes, detachNodesAux, hinst, hrec,
    detachTGLoop_all_detached env inst node.name spec.awsTargets st 0 h'.1,
    detachCLBLoop_all_detached env inst spec.awsLoadBalancers st 0 h'.2]

theorem detachNodes_missing_record (env : Env) (node : Node) (st : St) (inst : String)
    (hinst : getInstanceID node = some inst)
    (hrec : alookup node.name st.records = none) :
    detachNodes env [node] st = (st, false, true) := by
  simp [detachNodes, detachNodesAux, hinst, hrec]

theorem detachNodes_single_error_facts (env : Env) (node : Node) (st st' : St) (p : Bool)
    (h : detachNodes env [node] st = (st', p, false)) :
    st'.records = st.records ∧ p = false
    ∧ st'.events.countP (fun e => e.isRecordWrite)
        = st.events.countP (fun e => e.isRecordWrite) := by
  unfold detachNodes at h
  cases hinst : getInstanceID node with
  | none =>
    simp only [detachNodesAux, hinst] at h
    simp only [Prod.mk.injEq] at h
    obtain ⟨rfl, rfl⟩ := And.intro h.1 h.2.1
    exact ⟨rfl, rfl, rfl⟩
  | some inst =>
    cases hrec : alookup node.name st.records with
    | none =>
      simp only [detachNodesAux, hinst, hrec] at h
      simp at h
    | some spec =>
      rcases htg : detachTGLoop env inst node.name spec.awsTargets st 0 with ⟨tgs', k1, st1, ok1⟩
      obtain ⟨hr1, hev1, hk1, hs1, hok1⟩ := detachTGLoop_facts env inst node.name _ _ _ _ _ _ _ htg
      cases ok1 with
      | false =>
        simp only [detachNodesAux, hinst, hrec, htg] at h
        simp only [Prod.mk.injEq] at h
        obtain ⟨rfl, rfl⟩ := And.intro h.1 h.2.1
        exact ⟨hr1, rfl, hev1⟩
      | true =>
        rcases hclb : detachCLBLoop env inst spec.awsLoadBalancers st1 k1 with ⟨lbs', k2, st2, ok2⟩
        obtain ⟨hr2, hn2, hev2, hk2, hok2⟩ := detachCLBLoop_facts env inst _ _ _ _ _ _ _ hclb
        cases ok2 with
        | false =>
          simp only [detachNodesAux, hinst, hrec, htg, hclb] at h
          simp only [Prod.mk.injEq] at h
          obtain ⟨rfl, rfl⟩ := And.intro h.1 h.2.1
          exact ⟨hr2.trans hr1, rfl, hev2.trans hev1⟩
        | true =>
          by_cases hk : 0 < k2
          · simp only [detachNodesAux, hinst, hrec, htg, hclb] at h
            rw [if_pos hk] at h
            simp only [detachNodesAux] at h
            simp at h
          · simp only [detachNodesAux, hinst, hrec, htg, hclb] at h
            rw [if_neg hk] at h
            simp only [detachNodesAux] at h
            simp at h

theorem detachNodes_ok_fullyDetached (env : Env) (node : Node) (inst : String)
    (spec : AttachmentSpec) (st st' : St) (p : Bool)
    (hinst : getInstanceID node = some inst)
    (hrec : alookup node.name st.records = some spec)
    (h : detachNodes env [node] st = (st', p, true)) :
    ∃ spec', alookup node.name st'.records = some spec'
      ∧ spec'.fullyDetached = true := by
  unfold detachNodes at h
  rcases htg : detachTGLoop env inst node.name spec.awsTargets st 0 with ⟨tgs', k1, st1, ok1⟩
  obtain ⟨hr1, hev1, hk1, hs1, hok1⟩ := detachTGLoop_facts env inst node.name _ _ _ _ _ _ _ htg
  cases ok1 with
  | false =>
    simp only [detachNodesAux, hinst, hrec, htg] at h
    simp at h
  | true =>
    rcases hclb : detachCLBLoop env inst spec.awsLoadBalancers st1 k1 with ⟨lbs', k2, st2, ok2⟩
    obtain ⟨hr2, hn2, hev2, hk2, hok2⟩ := detachCLBLoop_facts env inst _ _ _ _ _ _ _ hclb
    cases ok2 with
    | false =>
      simp only [detachNodesAux, hinst, hrec, htg, hclb] at h
      simp at h
    | true =>
      obtain ⟨hallT, hkeqT⟩ := hok1 rfl
      obtain ⟨hallL, hkeqL⟩ := hok2 rfl
      by_cases hk : 0 < k2
      · simp only [detachNodesAux, hinst, hrec, htg, hclb] at h
        rw [if_pos hk] at h
        simp only [detachNodesAux] at h
        simp only [Prod.mk.injEq] at h
        obtain ⟨h1, _⟩ := h
        refine ⟨{ spec with awsTargets := tgs', awsLoadBalancers := lbs' }, ?_, ?_⟩
        · rw [← h1]
          exact alookup_aset_self node.name _ st2.records
        · simp only [AttachmentSpec.fullyDetached, Bool.and_eq_true]
          exact ⟨hallT, hallL⟩
      · have hk2z : k2 = 0 := Nat.eq_zero_of_not_pos hk
        have hk1z : k1 = 0 := Nat.le_antisymm (hk2z ▸ hk2) (Nat.zero_le _)
        obtain ⟨hst2, hls⟩ := hkeqL (hk2z.trans hk1z.symm)
        obtain ⟨hst1, hts⟩ := hkeqT hk1z
        simp only [detachNodesAux, hinst, hrec, htg, hclb] at h
        rw [if_neg hk] at h
        simp only [detachNodesAux] at h
        simp only [Prod.mk.injEq] at h
        obtain ⟨h1, _⟩ := h
        refine ⟨spec, ?_, ?_⟩
        · rw [← h1, hr2, hr1]
          exact hrec
        · simp only [AttachmentSpec.fullyDetached, Bool.and_eq_true]
          exact ⟨hts ▸ hallT, hls ▸ hallL⟩

theorem detachTGLoop_nofail (env : Env) (inst nm : String) :
    ∀ (ts : List AwsTarget) (st : St) (k : Nat),
    (getNode nm st.nodes).isSome = true →
    ts.all (fun t => t.detached || !env.tgDeregFail t.arn t.port) = true →
    ∃ st', detachTGLoop env inst nm ts st k
        = (ts.map (fun t => { t with detached := true }),
           k + ts.countP (fun t => !t.detached), st', true)
      ∧ (getNode nm st'.nodes).isSome = true := by
  intro ts
  induction ts with
  | nil =>
    intro st k hpres _
    exact ⟨st, by simp [detachTGLoop], hpres⟩
  | cons t rest ih =>
    intro st k hpres hall
    simp only [List.all_cons, Bool.and_eq_true] at hall
    by_cases ht : t.detached
    · obtain ⟨st', heq, hpres'⟩ := ih st k hpres hall.2
      refine ⟨st', ?_, hpres'⟩
      simp only [detachTGLoop, ht, if_true, heq, List.map_cons, List.countP_cons]
      simp [detachTrue_id ht, ht]
    · have hf : env.tgDeregFail t.arn t.port = false := by
        have h1 := hall.1
        simp only [Bool.or_eq_true] at h1
        rcases h1 with h1 | h1
        · exact absurd h1 ht
        · simpa using h1
      cases hg : getNode nm st.nodes with
      | none => rw [hg] at hpres; simp at hpres
      | some latest =>
        have hname := getNode_name hg
        have hpres2 : (getNode nm (setNode
            { latest with labels := aset excludeBalancerKey "true" latest.labels }
            st.nodes)).isSome = true := by
          rw [getNode_isSome_setNode st.nodes latest
            { latest with labels := aset excludeBalancerKey "true" latest.labels }
            (by simpa [hname] using hg) nm]
          exact hpres

        obtain ⟨st', heq, hpres'⟩ := ih
          { st with
            nodes := setNode { latest with labels := aset excludeBalancerKey "true" latest.labels } st.nodes,
            events := (st.events ++ [Event.nodeWrite nm]) ++ [Event.deregTG t.arn t.port inst] }
          (k + 1) hpres2 hall.2
        refine ⟨st', ?_, hpres'⟩
        simp only [detachTGLoop, ht, if_false, hg, hf, heq]
        have hc : k + List.countP (fun t => !t.detached) (t :: rest)
            = (k + 1) + List.countP (fun t => !t.detached) rest := by
          simp only [List.countP_cons, ht]
          simp
          omega
        rw [List.map_cons, hc]
        simp

theorem detachCLBLoop_nofail (env : Env) (inst : String) :
    ∀ (ls : List AwsLoadBalancer) (st : St) (k : Nat),
    ls.all (fun l => l.detached || !env.clbDeregFail l.name) = true →
    ∃ st', detachCLBLoop env inst ls st k
        = (ls.map (fun l => { l with detached := true }),
           k + ls.countP (fun l => !l.detached), st', true)
      ∧ st'.nodes = st.nodes := by
  intro ls
  induction ls with
  | nil =>
    intro st k _
    exact ⟨st, by simp [detachCLBLoop], rfl⟩
  | cons l rest ih =>
    intro st k hall
    simp only [List.all_cons, Bool.and_eq_true] at hall
    by_cases hl : l.detached
    · obtain ⟨st', heq, hn⟩ := ih st k hall.2
      refine ⟨st', ?_, hn⟩
      simp only [detachCLBLoop, hl, if_true, heq, List.map_cons, List.countP_cons]
      simp [lbDetachTrue_id hl, hl]
    · have hf : env.clbDeregFail l.name = false := by
        have h1 := hall.1
        simp only [Bool.or_eq_true] at h1
        rcases h1 with h1 | h1
        · exact absurd h1 hl
        · simpa using h1
      obtain ⟨st', heq, hn⟩ := ih
        { st with events := st.events ++ [Event.deregCLB l.name inst] } (k + 1) hall.2
      refine ⟨st', ?_, hn⟩
      simp only [detachCLBLoop, hl, if_false, hf, heq]
      have hc : k + List.countP (fun l => !l.detached) (l :: rest)
          = (k + 1) + List.countP (fun l => !l.detached) rest := by
        simp only [List.countP_cons, hl]
        simp
        omega
      rw [List.map_cons, hc]
      simp

theorem all_detached_of_countP_eq_zero {ts : List AwsTarget}
    (h : ts.countP (fun t => !t.detached) = 0) : ts.all (·.detached) = true := by
  rw [List.countP_eq_zero] at h
  rw [List.all_eq_true]
  intro t ht
  have := h t ht
  simpa using this

theorem all_lbDetached_of_countP_eq_zero {ls : List AwsLoadBalancer}
    (h : ls.countP (fun l => !l.detached) = 0) : ls.all (·.detached) = true := by
  rw [List.countP_eq_zero] at h
  rw [List.all_eq_true]
  intro l hl
  have := h l hl
  simpa using this

theorem detachNodes_nofail (env : Env) (node : Node) (inst : String)
    (spec : AttachmentSpec) (st : St)
    (hinst : getInstanceID node = some inst)
    (hrec : alookup node.name st.records = some spec)
    (hpres : (getNode node.name st.nodes).isSome = true)
    (hT : spec.awsTargets.all (fun t => t.detached || !env.tgDeregFail t.arn t.port) = true)
    (hL : spec.awsLoadBalancers.all (fun l => l.detached || !env.clbDeregFail l.name) = true) :
    ∃ st' p, detachNodes env [node] st = (st', p, true)
      ∧ (getNode node.name st'.nodes).isSome = true
      ∧ alookup node.name st'.records = some
          { spec with
            awsTargets := spec.awsTargets.map (fun t => { t with detached := true }),
            awsLoadBalancers := spec.awsLoadBalancers.map (fun l => { l with detached := true }) } := by
  obtain ⟨st1, htg, hpres1⟩ := detachTGLoop_nofail env inst node.name spec.awsTargets st 0 hpres hT
  obtain ⟨st2, hclb, hn2⟩ := detachCLBLoop_nofail env inst spec.awsLoadBalancers st1
    (0 + spec.awsTargets.countP (fun t => !t.detached)) hL
  obtain ⟨hr1, _, _, _, _⟩ := detachTGLoop_facts env inst node.name _ _ _ _ _ _ _ htg
  obtain ⟨hr2, _, _, _, _⟩ := detachCLBLoop_facts env inst _ _ _ _ _ _ _ hclb
  unfold detachNodes
  simp only [detachNodesAux, hinst, hrec, htg, hclb]
  by_cases hk : 0 < 0 + spec.awsTargets.countP (fun t => !t.detached)
      + spec.awsLoadBalancers.countP (fun l => !l.detached)
  · rw [if_pos hk]
    simp only [detachNodesAux]
    refine ⟨_, _, rfl, ?_, ?_⟩
    · simp only
      rw [hn2]
      exact hpres1
    · simp only
      exact alookup_aset_self node.name _ st2.records
  · rw [if_neg hk]
    simp only [detachNodesAux]
    refine ⟨_, _, rfl, ?_, ?_⟩
    · rw [hn2]
      exact hpres1
    · have hcT : spec.awsTargets.countP (fun t => !t.detached) = 0 := by omega
      have hcL : spec.awsLoadBalancers.countP (fun l => !l.detached) = 0 := by omega
      rw [hr2, hr1, hrec,
        map_detachTrue_of_all (all_detached_of_countP_eq_zero hcT),
        map_lbDetachTrue_of_all (all_lbDetached_of_countP_eq_zero hcL)]

/-! ## Claims C1, C2, C7 — the detach orchestrator -/

/-- C1 counterexample: with a three-entry record whose second entry fails to
deregister, detach returns the error but the stored record still shows every
entry — including the first, already deregistered one — as detached = false:
the in-memory flip of entry 1 was not persisted before returning, contrary
to the claim. -/
theorem detach_midway_failure_drops_memory_flips :
    (detachNodes envTG2Fails [node1] stRec3).2.2 = false
    ∧ (alookup "n1" (detachNodes envTG2Fails [node1] stRec3).1.records).map
        (fun s => s.awsTargets.map (fun t => t.detached)) = some [false, false, false] := by
  decide

/-- C1 (amended): when deregistration of the Nth entry fails during detach,
the entries deregistered earlier in that same call are NOT persisted — the
call returns the error with the attachment-record store unchanged and
without any record write, so a subsequent retry re-attempts every entry
still marked detached = false in the stored record, including repeating the
deregistrations that had already completed. -/
theorem detach_error_leaves_record_unpersisted (env : Env) (node : Node) (st st' : St) (p : Bool)
    (h : detachNodes env [node] st = (st', p, false)) :
    st'.records = st.records ∧ p = false
    ∧ st'.events.countP (fun e => e.isRecordWrite)
        = st.events.countP (fun e => e.isRecordWrite) :=
  detachNodes_single_error_facts env node st st' p h

/-- Witness for the amended C1 theorem at the concrete failing input. -/
theorem detach_error_leaves_record_unpersisted_witness :
    (detachNodes envTG2Fails [node1] stRec3).1.records = stRec3.records
    ∧ (detachNodes envTG2Fails [node1] stRec3).2.1 = false := by
  have heq : detachNodes envTG2Fails [node1] stRec3
      = ((detachNodes envTG2Fails [node1] stRec3).1,
         (detachNodes envTG2Fails [node1] stRec3).2.1, false) := by decide
  have h := detach_error_leaves_record_unpersisted envTG2Fails node1 stRec3 _ _ heq
  exact ⟨h.1, h.2.1⟩

/-- C2: calling detach on a node whose record is fully detached returns the
state untouched — zero registry calls, no attachment-record update — with
progressed = false and no error; and every successful detach call leaves the
node's record fully detached, so the call immediately following a fully
successful one is exactly such a call. -/
theorem detach_idempotent_on_fully_detached :
    (∀ (env : Env) (node : Node) (inst : String) (spec : AttachmentSpec) (st : St),
      getInstanceID node = some inst →
      alookup node.name st.records = some spec →
      spec.fullyDetached = true →
      detachNodes env [node] st = (st, false, true))
    ∧ (∀ (env : Env) (node : Node) (inst : String) (spec : AttachmentSpec) (st st' : St)
        (p : Bool),
      getInstanceID node = some inst →
      alookup node.name st.records = some spec →
      detachNodes env [node] st = (st', p, true) →
      ∃ spec', alookup node.name st'.records = some spec' ∧ spec'.fullyDetached = true) :=
  ⟨fun env node inst spec st h1 h2 h3 =>
      detachNodes_fullyDetached_noop env node inst spec st h1 h2 h3,
   fun env node inst spec st st' p h1 h2 h3 =>
      detachNodes_ok_fullyDetached env node inst spec st st' p h1 h2 h3⟩

/-- Witness for C2 at a concrete fully-detached record. -/
theorem detach_idempotent_on_fully_detached_witness :
    detachNodes envOK [node1] stDone = (stDone, false, true) :=
  detach_idempotent_on_fully_detached.1 envOK node1 "i-1" recDone stDone
    (by decide) (by decide) (by decide)

/-- C7 counterexample: with no attachment record cached for the node,
detachNodes logs and skips the node, returning success — no error is
returned, contrary to the claim. -/
theorem detach_missing_record_returns_no_error :
    detachNodes envOK [node1] stNoRec = (stNoRec, false, true) := by decide

/-- C7 (amended): for a node whose attachment record does not exist,
detachNodes performs no deregistration calls for that node, logs and skips
it, and returns progressed = false with NO error. -/
theorem detach_missing_record_skips_node (env : Env) (node : Node) (st : St) (inst : String)
    (hinst : getInstanceID node = some inst)
    (hrec : alookup node.name st.records = none) :
    detachNodes env [node] st = (st, false, true) :=
  detachNodes_missing_record env node st inst hinst hrec

/-- Witness for the amended C7 theorem at a concrete record-less node. -/
theorem detach_missing_record_skips_node_witness :
    detachNodes envOK [node7] stNoRec7 = (stNoRec7, false, true) :=
  detach_missing_record_skips_node envOK node7 stNoRec7 "i-7" (by decide) (by decide)

/-! ## Claim C3 — the unschedulability classification -/

/-- C3 counterexample: a node whose only taint is the node-lifecycle taint
"node.kubernetes.io/not-ready" — in the claim's ignore list — is
nevertheless classified unschedulable by the code (`hasAnyK8sTaint` is a
disjunct of its own), while the claim's formula classifies it schedulable. -/
theorem unschedulable_test_ignores_lifecycle_taints_refuted :
    nodeIsSchedulable nodeK8sTaint = false ∧ claimUnschedulable nodeK8sTaint = false := by
  decide

/-- C3 (amended): the reconciler classifies a node unschedulable exactly
when the explicit flag is set, or a taint keyed exactly
ToBeDeletedByClusterAutoscaler is present, or any taint prefixed by the
node-lifecycle key space node.kubernetes.io/ is present (lifecycle taints
are NOT ignored), or any taint whose key starts with none of the three
ignored prefixes (the autoscaler key, the controller's detaching taint, the
lifecycle key space) is present, or the requires-detached annotation is
present.  A node with the explicit flag false but the to-be-deleted taint
present is unschedulable, and a node whose only taints carry the
controller's own detaching key is not made unschedulable by its taints. -/
theorem unschedulable_test_characterization :
    (∀ node : Node, (!nodeIsSchedulable node)
      = (node.unschedulable
         || node.taints.any (fun t => t.key = NodeTaintToBeDeletedByCA)
         || node.taints.any (fun t => strHasPfx NodeTaintKeyK8sNode t.key)
         || node.taints.any (fun t =>
              !(strHasPfx NodeTaintToBeDeletedByCA t.key
                || strHasPfx NodeTaintKeyDetaching t.key
                || strHasPfx NodeTaintKeyK8sNode t.key))
         || node.annotations.any (fun kv => kv.1 = NodeAnnotationKeyDetached)))
    ∧ (∀ node : Node, node.unschedulable = false → toBeDeletedByCA node = true →
        nodeIsSchedulable node = false)
    ∧ (∀ node : Node, node.unschedulable = false → nodeRequireDetached node = false →
        node.taints.all (fun t => t.key = NodeTaintKeyDetaching) = true →
        nodeIsSchedulable node = true) := by
  refine ⟨?_, ?_, ?_⟩
  · intro node
    simp only [nodeIsSchedulable, toBeDeletedByCA, hasAnyK8sTaint, hasAnyCustomTaint,
      nodeRequireDetached, ignoredTaintKeys, List.any_cons, List.any_nil,
      Bool.not_and, Bool.not_not, Bool.or_false]
    simp [Bool.or_assoc]
  · intro node h1 h2
    simp [nodeIsSchedulable, h2]
  · intro node h1 h2 h3
    rw [List.all_eq_true] at h3
    have hA : toBeDeletedByCA node = false := by
      rw [Bool.eq_false_iff]
      intro hcontra
      rw [toBeDeletedByCA, List.any_eq_true] at hcontra
      obtain ⟨t, ht, hkey⟩ := hcontra
      have h4 := h3 t ht
      simp only [decide_eq_true_eq] at h4 hkey
      rw [h4] at hkey
      exact absurd hkey (by decide)
    have hB : hasAnyK8sTaint node = false := by
      rw [Bool.eq_false_iff]
      intro hcontra
      rw [hasAnyK8sTaint, List.any_eq_true] at hcontra
      obtain ⟨t, ht, hkey⟩ := hcontra
      have h4 := h3 t ht
      simp only [decide_eq_true_eq] at h4
      rw [h4] at hkey
      exact absurd hkey (by decide)
    have hC : hasAnyCustomTaint node = false := by
      rw [Bool.eq_false_iff]
      intro hcontra
      rw [hasAnyCustomTaint, List.any_eq_true] at hcontra
      obtain ⟨t, ht, hkey⟩ := hcontra
      have h4 := h3 t ht
      simp only [decide_eq_true_eq] at h4
      rw [h4] at hkey
      exact absurd hkey (by decide)
    simp [nodeIsSchedulable, h1, h2, hA, hB, hC]

/-- Witness for the amended C3 theorem: the to-be-deleted taint alone makes
a node with the explicit flag false unschedulable. -/
theorem unschedulable_test_characterization_witness :
    nodeIsSchedulable nodeTbd = false :=
  unschedulable_test_characterization.2.1 nodeTbd (by decide) (by decide)

/-! ## Attach-loop lemmas -/

theorem attachFalse_id {t : AwsTarget} (h : t.detached = false) :
    ({ t with detached := false } : AwsTarget) = t := by
  cases t; simp_all

theorem lbAttachFalse_id {l : AwsLoadBalancer} (h : l.detached = false) :
    ({ l with detached := false } : AwsLoadBalancer) = l := by
  cases l; simp_all

theorem attachTGLoop_all_attached (env : Env) (inst nm : String) :
    ∀ (ts : List AwsTarget) (st : St) (k : Nat), ts.all (fun t => !t.detached) = true →
    attachTGLoop env inst nm ts st k = (ts, k, st, true) := by
  intro ts
  induction ts with
  | nil => intro st k _; rfl
  | cons t rest ih =>
    intro st k h
    simp only [List.all_cons, Bool.and_eq_true] at h
    have ht : t.detached = false := by simpa using h.1
    simp [attachTGLoop, ht, ih st k h.2]

theorem attachCLBLoop_all_attached (env : Env) (inst : String) :
    ∀ (ls : List AwsLoadBalancer) (st : St) (k : Nat), ls.all (fun l => !l.detached) = true →
    attachCLBLoop env inst ls st k = (ls, k, st, true) := by
  intro ls
  induction ls with
  | nil => intro st k _; rfl
  | cons l rest ih =>
    intro st k h
    simp only [List.all_cons, Bool.and_eq_true] at h
    have hl : l.detached = false := by simpa using h.1
    simp [attachCLBLoop, hl, ih st k h.2]

theorem attachTGLoop_nofail (env : Env) (inst nm : String) :
    ∀ (ts : List AwsTarget) (st : St) (k : Nat),
    (getNode nm st.nodes).isSome = true →
    ts.all (fun t => !t.detached || !env.tgRegFail t.arn t.port) = true →
    ∃ st', attachTGLoop env inst nm ts st k
        = (ts.map (fun t => { t with detached := false }),
           k + ts.countP (fun t => t.detached), st', true)
      ∧ (getNode nm st'.nodes).isSome = true
      ∧ st'.records = st.records
      ∧ ∃ evs, st'.events = st.events ++ evs
        ∧ evs.filter (fun e => e.isRegistryCall)
            = (ts.filter (fun t => t.detached)).map (fun t => Event.regTG t.arn t.port inst) := by
  intro ts
  induction ts with
  | nil =>
    intro st k hpres _
    exact ⟨st, by simp [attachTGLoop], hpres, rfl, [], by simp, by simp⟩
  | cons t rest ih =>
    intro st k hpres hall
    simp only [List.all_cons, Bool.and_eq_true] at hall
    by_cases ht : t.detached
    · have hf : env.tgRegFail t.arn t.port = false := by
        have h1 := hall.1
        simp only [Bool.or_eq_true] at h1
        rcases h1 with h1 | h1
        · rw [ht] at h1; simp at h1
        · simpa using h1
      cases hg : getNode nm st.nodes with
      | none => rw [hg] at hpres; simp at hpres
      | some latest =>
        have hname := getNode_name hg
        have hpres2 : (getNode nm (setNode
            { latest with labels := adel excludeBalancerKey latest.labels }
            st.nodes)).isSome = true := by
          rw [getNode_isSome_setNode st.nodes latest
            { latest with labels := adel excludeBalancerKey latest.labels }
            (by simpa [hname] using hg) nm]
          exact hpres
        obtain ⟨st', heq, hpres', hrecs, evs, hev, hfil⟩ := ih
          { st with
            nodes := setNode { latest with labels := adel excludeBalancerKey latest.labels } st.nodes,
            events := (st.events ++ [Event.nodeWrite nm]) ++ [Event.regTG t.arn t.port inst] }
          (k + 1) hpres2 hall.2
        refine ⟨st', ?_, hpres', by simpa using hrecs,
          [Event.nodeWrite nm, Event.regTG t.arn t.port inst] ++ evs, ?_, ?_⟩
        · simp only [attachTGLoop, ht, Bool.not_true, if_false, hg, hf, heq]
          have hc : k + List.countP (fun t => t.detached) (t :: rest)
              = (k + 1) + List.countP (fun t => t.detached) rest := by
            simp only [List.countP_cons, ht]
            simp
            omega
          rw [List.map_cons, hc]
          simp
        · simp only at hev
          rw [hev]
          simp
        · have h1 : List.filter (fun e => e.isRegistryCall)
              [Event.nodeWrite nm, Event.regTG t.arn t.port inst]
              = [Event.regTG t.arn t.port inst] := by simp [Event.isRegistryCall]
          rw [List.filter_append, h1, hfil]
          have h2 : List.filter (fun t => t.detached) (t :: rest)
              = t :: List.filter (fun t => t.detached) rest := by simp [ht]
          rw [h2, List.map_cons]
          simp
    · obtain ⟨st', heq, hpres', hrecs, evs, hev, hfil⟩ := ih st k hpres hall.2
      refine ⟨st', ?_, hpres', hrecs, evs, hev, ?_⟩
      · simp only [attachTGLoop, ht, Bool.not_false, if_true, heq, List.map_cons,
          List.countP_cons]
        have ht' : t.detached = false := by simpa using ht
        simp [attachFalse_id ht', ht']
      · simp only [List.filter_cons, ht]
        simpa using hfil

theorem attachCLBLoop_nofail (env : Env) (inst : String) :
    ∀ (ls : List AwsLoadBalancer) (st : St) (k : Nat),
    ls.all (fun l => !l.detached || !env.clbRegFail l.name) = true →
    ∃ st', attachCLBLoop env inst ls st k
        = (ls.map (fun l => { l with detached := false }),
           k + ls.countP (fun l => l.detached), st', true)
      ∧ st'.nodes = st.nodes
      ∧ st'.records = st.records
      ∧ ∃ evs, st'.events = st.events ++ evs
        ∧ evs.filter (fun e => e.isRegistryCall)
            = (ls.filter (fun l => l.detached)).map (fun l => Event.regCLB l.name inst) := by
  intro ls
  induction ls with
  | nil =>
    intro st k _
    exact ⟨st, by simp [attachCLBLoop], rfl, rfl, [], by simp, by simp⟩
  | cons l rest ih =>
    intro st k hall
    simp only [List.all_cons, Bool.and_eq_true] at hall
    by_cases hl : l.detached
    · have hf : env.clbRegFail l.name = false := by
        have h1 := hall.1
        simp only [Bool.or_eq_true] at h1
        rcases h1 with h1 | h1
        · rw [hl] at h1; simp at h1
        · simpa using h1
      obtain ⟨st', heq, hn, hrecs, evs, hev, hfil⟩ := ih
        { st with events := st.events ++ [Event.regCLB l.name inst] } (k + 1) hall.2
      refine ⟨st', ?_, by simpa using hn, by simpa using hrecs,
        [Event.regCLB l.name inst] ++ evs, ?_, ?_⟩
      · simp only [attachCLBLoop, hl, Bool.not_true, if_false, hf, heq]
        have hc : k + List.countP (fun l => l.detached) (l :: rest)
            = (k + 1) + List.countP (fun l => l.detached) rest := by
          simp only [List.countP_cons, hl]
          simp
          omega
        rw [List.map_cons, hc]
        simp
      · simp only at hev
        rw [hev]
        simp
      · have h1 : List.filter (fun e => e.isRegistryCall) [Event.regCLB l.name inst]
            = [Event.regCLB l.name inst] := by simp [Event.isRegistryCall]
        rw [List.filter_append, h1, hfil]
        have h2 : List.filter (fun l => l.detached) (l :: rest)
            = l :: List.filter (fun l => l.detached) rest := by simp [hl]
        rw [h2, List.map_cons]
        simp
    · obtain ⟨st', heq, hn, hrecs, evs, hev, hfil⟩ := ih st k hall.2
      refine ⟨st', ?_, hn, hrecs, evs, hev, ?_⟩
      · simp only [attachCLBLoop, hl, Bool.not_false, if_true, heq, List.map_cons,
          List.countP_cons]
        have hl' : l.detached = false := by simpa using hl
        simp [lbAttachFalse_id hl', hl']
      · simp only [List.filter_cons, hl]
        simpa using hfil

theorem map_attachFalse_of_all {ts : List AwsTarget}
    (h : ts.all (fun t => !t.detached) = true) :
    ts.map (fun t => { t with detached := false }) = ts := by
  induction ts with
  | nil => rfl
  | cons t rest ih =>
    simp only [List.all_cons, Bool.and_eq_true] at h
    have ht : t.detached = false := by simpa using h.1
    simp only [List.map_cons, ih h.2, attachFalse_id ht]

theorem map_lbAttachFalse_of_all {ls : List AwsLoadBalancer}
    (h : ls.all (fun l => !l.detached) = true) :
    ls.map (fun l => { l with detached := false }) = ls := by
  induction ls with
  | nil => rfl
  | cons l rest ih =>
    simp only [List.all_cons, Bool.and_eq_true] at h
    have hl : l.detached = false := by simpa using h.1
    simp only [List.map_cons, ih h.2, lbAttachFalse_id hl]

theorem all_not_detached_of_countP_eq_zero {ts : List AwsTarget}
    (h : ts.countP (fun t => t.detached) = 0) : ts.all (fun t => !t.detached) = true := by
  rw [List.countP_eq_zero] at h
  rw [List.all_eq_true]
  intro t ht
  have := h t ht
  simpa using this

theorem all_lb_not_detached_of_countP_eq_zero {ls : List AwsLoadBalancer}
    (h : ls.countP (fun l => l.detached) = 0) : ls.all (fun l => !l.detached) = true := by
  rw [List.countP_eq_zero] at h
  rw [List.all_eq_true]
  intro l hl
  have := h l hl
  simpa using this

theorem attachNodes_fullyAttached_noop (env : Env) (node : Node) (inst : String)
    (spec : AttachmentSpec) (st : St)
    (hinst : getInstanceID node = some inst)
    (hrec : alookup node.name st.records = some spec)
    (hT : spec.awsTargets.all (fun t => !t.detached) = true)
    (hL : spec.awsLoadBalancers.all (fun l => !l.detached) = true) :
    attachNodes env [node] st = (st, true) := by
  simp [attachNodes, attachNodesAux, hinst, hrec,
    attachTGLoop_all_attached env inst node.name spec.awsTargets st 0 hT,
    attachCLBLoop_all_attached env inst spec.awsLoadBalancers st 0 hL]

theorem attachNodes_nofail (env : Env) (node : Node) (inst : String)
    (spec : AttachmentSpec) (st : St)
    (hinst : getInstanceID node = some inst)
    (hrec : alookup node.name st.records = some spec)
    (hpres : (getNode node.name st.nodes).isSome = true)
    (hT : spec.awsTargets.all (fun t => !t.detached || !env.tgRegFail t.arn t.port) = true)
    (hL : spec.awsLoadBalancers.all (fun l => !l.detached || !env.clbRegFail l.name) = true) :
    ∃ st', attachNodes env [node] st = (st', true)
      ∧ (getNode node.name st'.nodes).isSome = true
      ∧ alookup node.name st'.records = some
          { spec with
            awsTargets := spec.awsTargets.map (fun t => { t with detached := false }),
            awsLoadBalancers := spec.awsLoadBalancers.map (fun l => { l with detached := false }) }
      ∧ ∃ evs, st'.events = st.events ++ evs
        ∧ evs.filter (fun e => e.isRegistryCall)
            = (spec.awsTargets.filter (fun t => t.detached)).map
                (fun t => Event.regTG t.arn t.port inst)
              ++ (spec.awsLoadBalancers.filter (fun l => l.detached)).map
                (fun l => Event.regCLB l.name inst) := by
  obtain ⟨st1, htg, hpres1, hrec1, evs1, hev1, hfil1⟩ :=
    attachTGLoop_nofail env inst node.name spec.awsTargets st 0 hpres hT
  obtain ⟨st2, hclb, hn2, hrec2, evs2, hev2, hfil2⟩ :=
    attachCLBLoop_nofail env inst spec.awsLoadBalancers st1
      (0 + spec.awsTargets.countP (fun t => t.detached)) hL
  unfold attachNodes
  simp only [attachNodesAux, hinst, hrec, htg, hclb]
  by_cases hk : 0 < 0 + spec.awsTargets.countP (fun t => t.detached)
      + spec.awsLoadBalancers.countP (fun l => l.detached)
  · rw [if_pos hk]
    refine ⟨_, rfl, ?_, ?_, ?_⟩
    · simp only
      rw [hn2]
      exact hpres1
    · simp only
      exact alookup_aset_self node.name _ st2.records
    · refine ⟨evs1 ++ (evs2 ++ [Event.recordWrite node.name]), ?_, ?_⟩
      · simp only
        rw [hev2, hev1]
        simp
      · simp only [List.filter_append, hfil1, hfil2]
        simp [Event.isRegistryCall]
  · rw [if_neg hk]
    have hcT : spec.awsTargets.countP (fun t => t.detached) = 0 := by omega
    have hcL : spec.awsLoadBalancers.countP (fun l => l.detached) = 0 := by omega
    refine ⟨st2, rfl, ?_, ?_, ?_⟩
    · rw [hn2]
      exact hpres1
    · rw [hrec2, hrec1, hrec,
        map_attachFalse_of_all (all_not_detached_of_countP_eq_zero hcT),
        map_lbAttachFalse_of_all (all_lb_not_detached_of_countP_eq_zero hcL)]
    · refine ⟨evs1 ++ evs2, ?_, ?_⟩
      · rw [hev2, hev1]
        simp
      · have hfT : spec.awsTargets.filter (fun t => t.detached) = [] := by
          rw [List.filter_eq_nil_iff]
          rw [List.countP_eq_zero] at hcT
          exact hcT
        have hfL : spec.awsLoadBalancers.filter (fun l => l.detached) = [] := by
          rw [List.filter_eq_nil_iff]
          rw [List.countP_eq_zero] at hcL
          exact hcL
        simp only [List.filter_append, hfil1, hfil2, hfT, hfL]

/-! ## Phase-update lemmas -/

theorem detachPhaseUpdate_name (cfg : Config) (env : Env) (n : Node) :
    (detachPhaseUpdate cfg env n).name = n.name := by
  unfold detachPhaseUpdate taintNode
  split <;> rfl

theorem attachPhaseUpdate_name (env : Env) (n : Node) :
    (attachPhaseUpdate env n).name = n.name := rfl

theorem taintNode_taints_any (n : Node) (v : String) :
    (taintNode n v).taints.any (fun t => t.key = NodeTaintKeyDetaching) = true := by
  unfold taintNode
  by_cases h : n.taints.any (fun t => t.key = NodeTaintKeyDetaching)
  · rw [if_pos h]
    rw [List.any_eq_true] at h ⊢
    obtain ⟨t, ht, hk⟩ := h
    simp only [decide_eq_true_eq] at hk
    refine ⟨{ t with value := v }, ?_, by simp [hk]⟩
    simp only [List.mem_map]
    exact ⟨t, ht, by simp [hk]⟩
  · rw [if_neg h]
    simp

theorem pfxKeysNe : NodeAnnotationKeyDetaching ≠ NodeAnnotationKeyAttachmentTimestamp
    ∧ NodeAnnotationKeyDetaching ≠ NodeAnnotationKeyDetachmentTimestamp
    ∧ NodeAnnotationKeyDetachmentTimestamp ≠ NodeAnnotationKeyAttachmentTimestamp
    ∧ NodeAnnotationKeyAttachmentTimestamp ≠ NodeAnnotationKeyDetachmentTimestamp := by
  refine ⟨?_, ?_, ?_, ?_⟩ <;> decide

theorem detachPhaseUpdate_annotations (cfg : Config) (env : Env) (n : Node) :
    alookup NodeAnnotationKeyDetaching (detachPhaseUpdate cfg env n).annotations = some "true"
    ∧ alookup NodeAnnotationKeyDetachmentTimestamp
        (detachPhaseUpdate cfg env n).annotations = some env.now
    ∧ alookup NodeAnnotationKeyAttachmentTimestamp
        (detachPhaseUpdate cfg env n).annotations = none := by
  have hanns : (detachPhaseUpdate cfg env n).annotations
      = adel NodeAnnotationKeyAttachmentTimestamp
          (aset NodeAnnotationKeyDetachmentTimestamp env.now
            (aset NodeAnnotationKeyDetaching "true" n.annotations)) := by
    unfold detachPhaseUpdate taintNode
    split <;> rfl
  rw [hanns]
  refine ⟨?_, ?_, ?_⟩
  · rw [alookup_adel_ne _ _ pfxKeysNe.1, alookup_aset_ne _ _ pfxKeysNe.2.1]
    exact alookup_aset_self _ _ _
  · rw [alookup_adel_ne _ _ pfxKeysNe.2.2.1]
    exact alookup_aset_self _ _ _
  · exact alookup_adel_self _ _

theorem detachPhaseUpdate_taints (cfg : Config) (env : Env) (n : Node) :
    (detachPhaseUpdate cfg env n).taints.any
      (fun t => t.key = NodeTaintKeyDetaching) = true := by
  unfold detachPhaseUpdate
  exact taintNode_taints_any _ cfg.name

theorem attachPhaseUpdate_annotations (env : Env) (n : Node) :
    alookup NodeAnnotationKeyDetaching (attachPhaseUpdate env n).annotations = some "false"
    ∧ alookup NodeAnnotationKeyAttachmentTimestamp
        (attachPhaseUpdate env n).annotations = some env.now
    ∧ alookup NodeAnnotationKeyDetachmentTimestamp
        (attachPhaseUpdate env n).annotations = none := by
  have hanns : (attachPhaseUpdate env n).annotations
      = adel NodeAnnotationKeyDetachmentTimestamp
          (aset NodeAnnotationKeyAttachmentTimestamp env.now
            (aset NodeAnnotationKeyDetaching "false" n.annotations)) := rfl
  rw [hanns]
  refine ⟨?_, ?_, ?_⟩
  · rw [alookup_adel_ne _ _ pfxKeysNe.2.1, alookup_aset_ne _ _ pfxKeysNe.1]
    exact alookup_aset_self _ _ _
  · rw [alookup_adel_ne _ _ pfxKeysNe.2.2.2]
    exact alookup_aset_self _ _ _
  · exact alookup_adel_self _ _

theorem attachPhaseUpdate_taints (env : Env) (n : Node) :
    (attachPhaseUpdate env n).taints.any (fun t => t.key = NodeTaintKeyDetaching) = false := by
  rw [Bool.eq_false_iff]
  intro h
  rw [List.any_eq_true] at h
  obtain ⟨t, ht, hk⟩ := h
  have ht' : t ∈ n.taints.filter (fun t => t.key ≠ NodeTaintKeyDetaching) := ht
  rw [List.mem_filter] at ht'
  simp only [decide_eq_true_eq] at hk
  have := ht'.2
  simp only [ne_eq, decide_not, Bool.not_eq_true', decide_eq_false_iff_not] at this
  exact this hk

theorem fullyDetached_map (spec : AttachmentSpec) :
    ({ spec with
        awsTargets := spec.awsTargets.map (fun t => { t with detached := true }),
        awsLoadBalancers := spec.awsLoadBalancers.map (fun l => { l with detached := true })
      } : AttachmentSpec).fullyDetached = true := by
  simp [AttachmentSpec.fullyDetached, List.all_map, Function.comp]

/-! ## Claim C5 — the detaching transition of Reconcile -/

/-- C5: when a managed, cached, non-master node that is not yet
BeingDetached is classified unschedulable, Reconcile runs the detach
orchestration (after which the node's record is fully detached) and then
persists, in one node update, a node carrying the detaching annotation set
to "true" (so it is BeingDetached from then on), a non-empty
detachment-timestamp annotation, the repel (detaching) taint, and no
attachment-timestamp annotation; the reconciliation returns no error and
the phase node write is the last effect. -/
theorem reconcile_detaching_transition (cfg : Config) (env : Env) (st : St) (node : Node)
    (inst : String) (spec : AttachmentSpec)
    (hget : getNode node.name st.nodes = some node)
    (haws : cfg.awsEnabled = true)
    (hinst : getInstanceID node = some inst)
    (hsync : cfg.synced = true)
    (hstatic : staticMode cfg = true)
    (hcached : Cached node = true)
    (hmaster : isMasterNode node = false)
    (hbd : nodeBeingDetached node = false)
    (hsched : nodeIsSchedulable node = false)
    (hrec : alookup node.name st.records = some spec)
    (hTd : spec.awsTargets.all (fun t => t.detached || !env.tgDeregFail t.arn t.port) = true)
    (hLd : spec.awsLoadBalancers.all (fun l => l.detached || !env.clbDeregFail l.name) = true)
    (hpods : env.deletePodsFail = false)
    (hnow : env.now ≠ "") :
    (Reconcile cfg env st node.name).err = false
    ∧ getNode node.name (Reconcile cfg env st node.name).st.nodes
        = some (detachPhaseUpdate cfg env node)
    ∧ nodeBeingDetached (detachPhaseUpdate cfg env node) = true
    ∧ alookup NodeAnnotationKeyDetaching
        (detachPhaseUpdate cfg env node).annotations = some "true"
    ∧ (∃ ts, alookup NodeAnnotationKeyDetachmentTimestamp
          (detachPhaseUpdate cfg env node).annotations = some ts ∧ ts ≠ "")
    ∧ alookup NodeAnnotationKeyAttachmentTimestamp
        (detachPhaseUpdate cfg env node).annotations = none
    ∧ (detachPhaseUpdate cfg env node).taints.any
        (fun t => t.key = NodeTaintKeyDetaching) = true
    ∧ (∃ spec', alookup node.name (Reconcile cfg env st node.name).st.records = some spec'
        ∧ spec'.fullyDetached = true)
    ∧ (Reconcile cfg env st node.name).st.events.getLast?
        = some (Event.nodeWrite node.name) := by
  have hpres : (getNode node.name st.nodes).isSome = true := by rw [hget]; rfl
  obtain ⟨stD, p, hdet, hpresD, hrecD⟩ :=
    detachNodes_nofail env node inst spec st hinst hrec hpres hTd hLd
  have hdyn : dynamicMode cfg = false := by
    have h := hstatic
    rw [staticMode] at h
    simpa using h
  have hstep : ∃ stF, detachAllStep cfg env node true st = (stF, true)
      ∧ stF.nodes = stD.nodes ∧ stF.records = stD.records := by
    by_cases hrd : nodeRequireDetached node
    · refine ⟨stD, ?_, rfl, rfl⟩
      unfold detachAllStep detachNodeStep deleteDSPodsStep
      simp [hdyn, hdet, hrd]
    · refine ⟨{ stD with events := stD.events ++ [Event.podsDelete node.name] }, ?_, rfl, rfl⟩
      unfold detachAllStep detachNodeStep deleteDSPodsStep
      simp [hdyn, hdet, hrd, hpods]
  obtain ⟨stF, hstepEq, hFn, hFr⟩ := hstep
  have hmain : Reconcile cfg env st node.name
      = ReconcileOut.mk
          { stF with
            nodes := setNode (detachPhaseUpdate cfg env node) stF.nodes,
            events := stF.events ++ [Event.nodeWrite node.name] }
          cfg.synced false := by
    simp only [Reconcile, hget]
    simp [haws, hinst, hsync, hstatic, hcached, hmaster, hbd, hsched, hstepEq]
  have hpresF : (getNode node.name stF.nodes).isSome = true := by rw [hFn]; exact hpresD
  obtain ⟨m, hm⟩ := Option.isSome_iff_exists.mp hpresF
  have hgot : getNode node.name (setNode (detachPhaseUpdate cfg env node) stF.nodes)
      = some (detachPhaseUpdate cfg env node) := by
    have hname := detachPhaseUpdate_name cfg env node
    have := getNode_setNode_self (detachPhaseUpdate cfg env node) (hname ▸ hm)
    rw [hname] at this
    exact this
  obtain ⟨ha1, ha2, ha3⟩ := detachPhaseUpdate_annotations cfg env node
  have hbdU : nodeBeingDetached (detachPhaseUpdate cfg env node) = true := by
    unfold nodeBeingDetached
    have hany := any_pair_of_alookup ha1
    rw [hany]
    simp
  refine ⟨by rw [hmain], ?_, hbdU, ha1, ⟨env.now, ha2, hnow⟩, ha3,
    detachPhaseUpdate_taints cfg env node, ?_, ?_⟩
  · rw [hmain]
    exact hgot
  · rw [hmain]
    refine ⟨_, ?_, fullyDetached_map spec⟩
    show alookup node.name stF.records = some _
    rw [hFr]
    exact hrecD
  · rw [hmain]
    exact getLast?_append_singleton _ _

/-- Witness for C5 at a concrete unschedulable cached node with a live
record. -/
theorem reconcile_detaching_transition_witness :
    (Reconcile cfgStatic envOK stLive "n1").err = false
    ∧ alookup NodeAnnotationKeyDetaching
        (detachPhaseUpdate cfgStatic envOK node1).annotations = some "true"
    ∧ (detachPhaseUpdate cfgStatic envOK node1).taints.any
        (fun t => t.key = NodeTaintKeyDetaching) = true := by
  obtain ⟨h1, _, _, h4, _, _, h7, _, _⟩ :=
    reconcile_detaching_transition cfgStatic envOK stLive node1 "i-1" recLive
      (by decide) rfl (by decide) rfl rfl (by decide) (by decide) (by decide) (by decide)
      (by decide) (by decide) (by decide) rfl (by decide)
  exact ⟨h1, h4, h7⟩

/-! ## Annotation-map lemmas for the re-attaching transition -/

theorem mem_aset {l : List (String × α)} {k : String} {v : α} {x : String × α}
    (h : x ∈ aset k v l) : x = (k, v) ∨ x ∈ l := by
  induction l with
  | nil => simpa [aset] using h
  | cons kv rest ih =>
    obtain ⟨k1, v1⟩ := kv
    by_cases hk : k1 = k
    · simp only [aset, hk, if_true] at h
      rcases List.mem_cons.mp h with h1 | h1
      · exact Or.inl h1
      · exact Or.inr (List.mem_cons_of_mem _ h1)
    · simp only [aset, hk, if_false] at h
      rcases List.mem_cons.mp h with h1 | h1
      · exact Or.inr (h1 ▸ List.mem_cons_self _ _)
      · rcases ih h1 with h2 | h2
        · exact Or.inl h2
        · exact Or.inr (List.mem_cons_of_mem _ h2)

theorem mem_adel {l : List (String × α)} {k : String} {x : String × α}
    (h : x ∈ adel k l) : x ∈ l := by
  induction l with
  | nil => simp [adel] at h
  | cons kv rest ih =>
    obtain ⟨k1, v1⟩ := kv
    by_cases hk : k1 = k
    · simp only [adel, hk, if_true] at h
      exact List.mem_cons_of_mem _ (ih h)
    · simp only [adel, hk, if_false] at h
      rcases List.mem_cons.mp h with h1 | h1
      · exact h1 ▸ List.mem_cons_self _ _
      · exact List.mem_cons_of_mem _ (ih h1)

theorem mem_aset_key_of_nodup {l : List (String × String)} {k v : String}
    (hnodup : (l.map Prod.fst).Nodup) :
    ∀ x ∈ aset k v l, x.1 = k → x = (k, v) := by
  induction l with
  | nil =>
    intro x hx _
    simpa [aset] using hx
  | cons kv rest ih =>
    obtain ⟨k1, v1⟩ := kv
    simp only [List.map_cons, List.nodup_cons] at hnodup
    intro x hx hxk
    by_cases hk : k1 = k
    · simp only [aset, hk, if_true] at hx
      rcases List.mem_cons.mp hx with h1 | h1
      · exact h1
      · exfalso
        apply hnodup.1
        rw [List.mem_map]
        exact ⟨x, h1, by rw [hxk, hk]⟩
    · simp only [aset, hk, if_false] at hx
      rcases List.mem_cons.mp hx with h1 | h1
      · exfalso
        apply hk
        rw [h1] at hxk
        exact hxk
      · exact ih hnodup.2 x h1 hxk

/-- After the attach-phase node update, no annotation pair marks the node as
being detached, provided the node's annotation keys were unique (as
Kubernetes map semantics guarantee). -/
theorem attachPhaseUpdate_not_being_detached (env : Env) (n : Node)
    (hnodup : (n.annotations.map Prod.fst).Nodup)
    (hconds : n.conditions.all
      (fun c => !(c.condType = "NodeBeingDetached" && c.status = "True")) = true) :
    nodeBeingDetached (attachPhaseUpdate env n) = false := by
  unfold nodeBeingDetached
  have hcond : (attachPhaseUpdate env n).conditions.any
      (fun c => c.condType = "NodeBeingDetached" && c.status = "True") = false := by
    have hc : (attachPhaseUpdate env n).conditions
        = n.conditions ++ [{ condType := "NodeBeingDetached", status := "False" }] := rfl
    rw [hc, List.any_append]
    rw [List.all_eq_true] at hconds
    have h1 : n.conditions.any
        (fun c => c.condType = "NodeBeingDetached" && c.status = "True") = false := by
      rw [Bool.eq_false_iff]
      intro hcontra
      rw [List.any_eq_true] at hcontra
      obtain ⟨c, hcmem, hcp⟩ := hcontra
      have := hconds c hcmem
      rw [hcp] at this
      simp at this
    rw [h1]
    decide
  have hann : (attachPhaseUpdate env n).annotations.any
      (fun kv => kv.1 = NodeAnnotationKeyDetaching && kv.2 = "true") = false := by
    have ha : (attachPhaseUpdate env n).annotations
        = adel NodeAnnotationKeyDetachmentTimestamp
            (aset NodeAnnotationKeyAttachmentTimestamp env.now
              (aset NodeAnnotationKeyDetaching "false" n.annotations)) := rfl
    rw [ha, Bool.eq_false_iff]
    intro hcontra
    rw [List.any_eq_true] at hcontra
    obtain ⟨x, hx, hxp⟩ := hcontra
    simp only [Bool.and_eq_true, decide_eq_true_eq] at hxp
    have hx1 := mem_adel hx
    rcases mem_aset hx1 with rfl | hx2
    · have hbad : NodeAnnotationKeyAttachmentTimestamp = NodeAnnotationKeyDetaching := hxp.1
      exact absurd hbad (by decide)
    · have := mem_aset_key_of_nodup hnodup x hx2 hxp.1
      rw [this] at hxp
      exact absurd hxp.2 (by decide)
  rw [hcond, hann]
  rfl

theorem fullyAttached_map (spec : AttachmentSpec) :
    (spec.awsTargets.map (fun t => { t with detached := false })).all
        (fun t => !t.detached) = true
    ∧ (spec.awsLoadBalancers.map (fun l => { l with detached := false })).all
        (fun l => !l.detached) = true := by
  constructor <;> simp [List.all_map, Function.comp]

/-! ## Claim C6 — the re-attaching transition of Reconcile -/

/-- C6: when a managed, cached, non-master node currently marked
BeingDetached is classified schedulable again, Reconcile runs the attach
orchestration (after which every record entry is re-attached) and, on its
success, persists in one node update a node that is no longer
BeingDetached (detaching annotation "false", no lingering true condition),
carries no repel (detaching) taint, has a non-empty attachment-timestamp
annotation and no detachment-timestamp annotation; the reconciliation
returns no error.  The attach orchestrator is modelled from the spec
(section 4.4), its record-based source being absent from the tree. -/
theorem reconcile_reattaching_transition (cfg : Config) (env : Env) (st : St) (node : Node)
    (inst : String) (spec : AttachmentSpec)
    (hget : getNode node.name st.nodes = some node)
    (haws : cfg.awsEnabled = true)
    (hinst : getInstanceID node = some inst)
    (hsync : cfg.synced = true)
    (hstatic : staticMode cfg = true)
    (hcached : Cached node = true)
    (hmaster : isMasterNode node = false)
    (hbd : nodeBeingDetached node = true)
    (hsched : nodeIsSchedulable node = true)
    (hrec : alookup node.name st.records = some spec)
    (hTr : spec.awsTargets.all (fun t => !t.detached || !env.tgRegFail t.arn t.port) = true)
    (hLr : spec.awsLoadBalancers.all (fun l => !l.detached || !env.clbRegFail l.name) = true)
    (hnodup : (node.annotations.map Prod.fst).Nodup)
    (hconds : node.conditions.all
      (fun c => !(c.condType = "NodeBeingDetached" && c.status = "True")) = true)
    (hnow : env.now ≠ "") :
    (Reconcile cfg env st node.name).err = false
    ∧ getNode node.name (Reconcile cfg env st node.name).st.nodes
        = some (attachPhaseUpdate env node)
    ∧ nodeBeingDetached (attachPhaseUpdate env node) = false
    ∧ alookup NodeAnnotationKeyDetaching
        (attachPhaseUpdate env node).annotations = some "false"
    ∧ (attachPhaseUpdate env node).taints.any
        (fun t => t.key = NodeTaintKeyDetaching) = false
    ∧ (∃ ts, alookup NodeAnnotationKeyAttachmentTimestamp
          (attachPhaseUpdate env node).annotations = some ts ∧ ts ≠ "")
    ∧ alookup NodeAnnotationKeyDetachmentTimestamp
        (attachPhaseUpdate env node).annotations = none
    ∧ (∃ spec', alookup node.name (Reconcile cfg env st node.name).st.records = some spec'
        ∧ spec'.awsTargets.all (fun t => !t.detached) = true
        ∧ spec'.awsLoadBalancers.all (fun l => !l.detached) = true)
    ∧ (Reconcile cfg env st node.name).st.events.getLast?
        = some (Event.nodeWrite node.name) := by
  have hpres : (getNode node.name st.nodes).isSome = true := by rw [hget]; rfl
  obtain ⟨stA, hatt, hpresA, hrecA, evs, hev, hfil⟩ :=
    attachNodes_nofail env node inst spec st hinst hrec hpres hTr hLr
  have hstep : attachNodeStep env node true st = (stA, true) := by
    unfold attachNodeStep
    simp [hatt]
  have hmain : Reconcile cfg env st node.name
      = ReconcileOut.mk
          { stA with
            nodes := setNode (attachPhaseUpdate env node) stA.nodes,
            events := stA.events ++ [Event.nodeWrite node.name] }
          cfg.synced false := by
    simp only [Reconcile, hget]
    simp [haws, hinst, hsync, hstatic, hcached, hmaster, hbd, hsched, hstep]
  obtain ⟨m, hm⟩ := Option.isSome_iff_exists.mp hpresA
  have hgot : getNode node.name (setNode (attachPhaseUpdate env node) stA.nodes)
      = some (attachPhaseUpdate env node) := by
    have hname := attachPhaseUpdate_name env node
    have := getNode_setNode_self (attachPhaseUpdate env node) (hname ▸ hm)
    rw [hname] at this
    exact this
  obtain ⟨ha1, ha2, ha3⟩ := attachPhaseUpdate_annotations env node
  refine ⟨by rw [hmain], ?_,
    attachPhaseUpdate_not_being_detached env node hnodup hconds,
    ha1, attachPhaseUpdate_taints env node, ⟨env.now, ha2, hnow⟩, ha3, ?_, ?_⟩
  · rw [hmain]
    exact hgot
  · rw [hmain]
    exact ⟨_, hrecA, (fullyAttached_map spec).1, (fullyAttached_map spec).2⟩
  · rw [hmain]
    exact getLast?_append_singleton _ _

/-- Witness for C6 at a concrete being-detached, schedulable node with a
fully detached record. -/
theorem reconcile_reattaching_transition_witness :
    (Reconcile cfgStatic envOK stBD "n1").err = false
    ∧ nodeBeingDetached (attachPhaseUpdate envOK nodeBD) = false
    ∧ (attachPhaseUpdate envOK nodeBD).taints.any
        (fun t => t.key = NodeTaintKeyDetaching) = false := by
  obtain ⟨h1, _, h3, _, h5, _, _, _, _⟩ :=
    reconcile_reattaching_transition cfgStatic envOK stBD nodeBD "i-1" recDone
      (by decide) rfl (by decide) rfl rfl (by decide) (by decide) (by decide) (by decide)
      (by decide) (by decide) (by decide) (by decide) (by decide) (by decide)
  exact ⟨h1, h3, h5⟩

/-! ## Claim C4 — reattachment reversibility -/

/-- C4: for a node whose record entries all start attached and a registry
with no failures, Detach followed by Attach restores every entry's detached
flag to false — the stored record equals the original — and the attach call
issues exactly one register call per entry (one regTG per (arn, port)
target and one regCLB per load balancer, in record order); calling Attach
again immediately afterwards changes nothing at all, so it performs zero
further register calls.  The attach orchestrator is modelled from the spec
(section 4.4), its record-based source being absent from the tree. -/
theorem detach_then_attach_reversible (env : Env) (node : Node) (inst : String)
    (spec : AttachmentSpec) (st : St)
    (hinst : getInstanceID node = some inst)
    (hrec : alookup node.name st.records = some spec)
    (hpres : (getNode node.name st.nodes).isSome = true)
    (hT0 : spec.awsTargets.all (fun t => !t.detached) = true)
    (hL0 : spec.awsLoadBalancers.all (fun l => !l.detached) = true)
    (hTd : spec.awsTargets.all (fun t => !env.tgDeregFail t.arn t.port) = true)
    (hLd : spec.awsLoadBalancers.all (fun l => !env.clbDeregFail l.name) = true)
    (hTr : spec.awsTargets.all (fun t => !env.tgRegFail t.arn t.port) = true)
    (hLr : spec.awsLoadBalancers.all (fun l => !env.clbRegFail l.name) = true) :
    ∃ st1 p st2, detachNodes env [node] st = (st1, p, true)
      ∧ attachNodes env [node] st1 = (st2, true)
      ∧ alookup node.name st2.records = some spec
      ∧ (∃ evs, st2.events = st1.events ++ evs
          ∧ evs.filter (fun e => e.isRegistryCall)
              = spec.awsTargets.map (fun t => Event.regTG t.arn t.port inst)
                ++ spec.awsLoadBalancers.map (fun l => Event.regCLB l.name inst))
      ∧ attachNodes env [node] st2 = (st2, true) := by
  have hTd' : spec.awsTargets.all
      (fun t => t.detached || !env.tgDeregFail t.arn t.port) = true := by
    rw [List.all_eq_true] at hTd ⊢
    intro t ht
    rw [Bool.or_eq_true]
    exact Or.inr (hTd t ht)
  have hLd' : spec.awsLoadBalancers.all
      (fun l => l.detached || !env.clbDeregFail l.name) = true := by
    rw [List.all_eq_true] at hLd ⊢
    intro l hl
    rw [Bool.or_eq_true]
    exact Or.inr (hLd l hl)
  obtain ⟨st1, p, hdet, hpres1, hrec1⟩ :=
    detachNodes_nofail env node inst spec st hinst hrec hpres hTd' hLd'
  have hTr' : (spec.awsTargets.map (fun t => { t with detached := true })).all
      (fun t => !t.detached || !env.tgRegFail t.arn t.port) = true := by
    rw [List.all_map, List.all_eq_true]
    intro t ht
    rw [Function.comp_apply, Bool.or_eq_true]
    exact Or.inr (List.all_eq_true.mp hTr t ht)
  have hLr' : (spec.awsLoadBalancers.map (fun l => { l with detached := true })).all
      (fun l => !l.detached || !env.clbRegFail l.name) = true := by
    rw [List.all_map, List.all_eq_true]
    intro l hl
    rw [Function.comp_apply, Bool.or_eq_true]
    exact Or.inr (List.all_eq_true.mp hLr l hl)
  obtain ⟨st2, hatt, hpres2, hrec2, evs, hev, hfil⟩ :=
    attachNodes_nofail env node inst _ st1 hinst hrec1 hpres1 hTr' hLr'
  have h1 : (spec.awsTargets.map (fun t => { t with detached := true })).map
      (fun t => { t with detached := false }) = spec.awsTargets := by
    rw [List.map_map]
    have hcomp : ((fun t : AwsTarget => { t with detached := false })
        ∘ (fun t : AwsTarget => { t with detached := true }))
        = fun t : AwsTarget => { t with detached := false } := rfl
    rw [hcomp]
    exact map_attachFalse_of_all hT0
  have h2 : (spec.awsLoadBalancers.map (fun l => { l with detached := true })).map
      (fun l => { l with detached := false }) = spec.awsLoadBalancers := by
    rw [List.map_map]
    have hcomp : ((fun l : AwsLoadBalancer => { l with detached := false })
        ∘ (fun l : AwsLoadBalancer => { l with detached := true }))
        = fun l : AwsLoadBalancer => { l with detached := false } := rfl
    rw [hcomp]
    exact map_lbAttachFalse_of_all hL0
  have hrecFinal : alookup node.name st2.records = some spec := by
    rw [hrec2]
    simp only [h1, h2]
  have hfil' : evs.filter (fun e => e.isRegistryCall)
      = spec.awsTargets.map (fun t => Event.regTG t.arn t.port inst)
        ++ spec.awsLoadBalancers.map (fun l => Event.regCLB l.name inst) := by
    rw [hfil]
    have hf1 : (spec.awsTargets.map (fun t => { t with detached := true })).filter
        (fun t => t.detached) = spec.awsTargets.map (fun t => { t with detached := true }) := by
      rw [List.filter_eq_self]
      intro a ha
      rw [List.mem_map] at ha
      obtain ⟨t, _, rfl⟩ := ha
      rfl
    have hf2 : (spec.awsLoadBalancers.map (fun l => { l with detached := true })).filter
        (fun l => l.detached)
        = spec.awsLoadBalancers.map (fun l => { l with detached := true }) := by
      rw [List.filter_eq_self]
      intro a ha
      rw [List.mem_map] at ha
      obtain ⟨l, _, rfl⟩ := ha
      rfl
    rw [hf1, hf2, List.map_map, List.map_map]
    rfl
  exact ⟨st1, p, st2, hdet, hatt, hrecFinal, ⟨evs, hev, hfil'⟩,
    attachNodes_fullyAttached_noop env node inst spec st2 hinst hrecFinal hT0 hL0⟩

/-- Witness for C4 at a concrete fully attached record. -/
theorem detach_then_attach_reversible_witness :
    alookup "n1" (attachNodes envOK [node1]
        (detachNodes envOK [node1] stLive).1).1.records = some recLive := by
  obtain ⟨st1, p, st2, hd, ha, hr, _, _⟩ :=
    detach_then_attach_reversible envOK node1 "i-1" recLive stLive
      (by decide) (by decide) (by decide) (by decide) (by decide)
      (by decide) (by decide) (by decide) (by decide)
  rw [hd]
  simp only
  rw [ha]
  exact hr

/-! ## Cache lemmas -/

theorem any_eq_false_of_all_not {l : List α} {p : α → Bool}
    (h : l.all (fun x => !p x) = true) : l.any p = false := by
  rw [Bool.eq_false_iff]
  intro hc
  rw [List.any_eq_true] at hc
  obtain ⟨x, hx, hpx⟩ := hc
  have := List.all_eq_true.mp h x hx
  rw [hpx] at this
  simp at this

theorem cacheNodeAttachments_single (cfg : Config) (env : Env) (node : Node) (st : St)
    (inst : String) (m : Node)
    (hcached : Cached node = false)
    (hinst : getInstanceID node = some inst)
    (hget : getNode node.name st.nodes = some m)
    (hCLB : env.describeCLBFail = false)
    (hTG : env.describeTGFail = false)
    (hHealth : env.targetGroups.all (fun tg => !env.describeHealthFail tg.arn) = true) :
    ∃ st', cacheNodeAttachments cfg env [node] st = (st', true)
      ∧ getNode node.name st'.nodes = some
          { m with
            labels := aset NodeLabelKeyCached "true" m.labels,
            annotations := aset NodeAnnotationKeyDetaching "true" m.annotations }
      ∧ alookup node.name st'.records = some
          { nodeName := node.name,
            awsTargets := buildTargets
              ((alookup inst (if shouldHandleTargetGroups cfg
                  then getIdToTDs env.targetGroups else [])).getD []),
            awsLoadBalancers := buildLoadBalancers
              ((alookup inst (if shouldHandleCLBs cfg
                  then getIdToCLBs [inst] env.clbs else [])).getD []) } := by
  have hany : env.targetGroups.any (fun tg => env.describeHealthFail tg.arn) = false :=
    any_eq_false_of_all_not hHealth
  have hclbs : (if shouldHandleCLBs cfg
      then (if env.describeCLBFail then none else some (getIdToCLBs [inst] env.clbs))
      else some []) = some (if shouldHandleCLBs cfg then getIdToCLBs [inst] env.clbs else []) := by
    cases h : shouldHandleCLBs cfg <;> simp [hCLB]
  have htds : (if shouldHandleTargetGroups cfg
      then (if env.describeTGFail
              || env.targetGroups.any (fun tg => env.describeHealthFail tg.arn)
            then none else some (getIdToTDs env.targetGroups))
      else some [])
      = some (if shouldHandleTargetGroups cfg then getIdToTDs env.targetGroups else []) := by
    cases h : shouldHandleTargetGroups cfg <;> simp [hTG, hany]
  have hmname : m.name = node.name := getNode_name hget
  refine ⟨{ st with
      nodes := setNode
        { m with
          labels := aset NodeLabelKeyCached "true" m.labels,
          annotations := aset NodeAnnotationKeyDetaching "true" m.annotations } st.nodes,
      records := aset node.name
        { nodeName := node.name,
          awsTargets := buildTargets
            ((alookup inst (if shouldHandleTargetGroups cfg
                then getIdToTDs env.targetGroups else [])).getD []),
          awsLoadBalancers := buildLoadBalancers
            ((alookup inst (if shouldHandleCLBs cfg
                then getIdToCLBs [inst] env.clbs else [])).getD []) }
        st.records,
      events := (st.events ++ [Event.recordWrite node.name]) ++ [Event.nodeWrite node.name] },
    ?_, ?_, ?_⟩
  · unfold cacheNodeAttachments
    simp only [collectUncached, hcached, Bool.false_eq_true, if_false, hinst]
    simp only [List.isEmpty_cons, hclbs, htds]
    unfold cacheLoop
    simp only [alookup, if_pos rfl, Option.getD_some, hget]
    rfl
  · have hpre : getNode
        ({ m with
           labels := aset NodeLabelKeyCached "true" m.labels,
           annotations := aset NodeAnnotationKeyDetaching "true" m.annotations } : Node).name
        st.nodes = some m := by
      simpa [hmname] using hget
    have := getNode_setNode_self
      ({ m with
         labels := aset NodeLabelKeyCached "true" m.labels,
         annotations := aset NodeAnnotationKeyDetaching "true" m.annotations } : Node) hpre
    simpa [hmname] using this
  · exact alookup_aset_self node.name _ st.records

/-! ## Resolution-map membership lemmas -/

theorem alookup_apush_self (k : String) (v : α) (m : List (String × List α)) :
    alookup k (apush k v m) = some ((alookup k m).getD [] ++ [v]) := by
  induction m with
  | nil => simp [apush, alookup]
  | cons kv rest ih =>
    obtain ⟨k1, vs⟩ := kv
    by_cases h : k1 = k
    · simp [apush, h, alookup]
    · simp [apush, h, alookup, ih]

theorem alookup_apush_ne (k k' : String) (hne : k' ≠ k) (v : α)
    (m : List (String × List α)) :
    alookup k' (apush k v m) = alookup k' m := by
  have hkk : k ≠ k' := fun h => hne h.symm
  induction m with
  | nil => simp [apush, alookup, hkk]
  | cons kv rest ih =>
    obtain ⟨k1, vs⟩ := kv
    by_cases h : k1 = k
    · have h1 : k1 ≠ k' := by rw [h]; exact hkk
      simp [apush, h, alookup, h1, hkk]
    · by_cases h' : k1 = k'
      · simp [apush, h, alookup, h', hne]
      · simp [apush, h, alookup, h', ih]

theorem tdMem_apush2_self (k1 k2 : String) (v : α)
    (m : List (String × List (String × List α))) :
    ∃ inner ports, alookup k1 (apush2 k1 k2 v m) = some inner
      ∧ alookup k2 inner = some ports ∧ v ∈ ports := by
  unfold apush2
  cases hm : alookup k1 m with
  | none =>
    refine ⟨apush k2 v [], [v], alookup_aset_self _ _ _, ?_, by simp⟩
    simp [apush, alookup]
  | some inner =>
    refine ⟨apush k2 v inner, (alookup k2 inner).getD [] ++ [v],
      alookup_aset_self _ _ _, alookup_apush_self _ _ _, by simp⟩

theorem tdMem_apush2_pres {id arn : String} {p : α}
    {m : List (String × List (String × List α))}
    (h : ∃ inner ports, alookup id m = some inner
      ∧ alookup arn inner = some ports ∧ p ∈ ports)
    (k1 k2 : String) (v : α) :
    ∃ inner ports, alookup id (apush2 k1 k2 v m) = some inner
      ∧ alookup arn inner = some ports ∧ p ∈ ports := by
  obtain ⟨inner, ports, hi, ha, hp⟩ := h
  unfold apush2
  by_cases hk : k1 = id
  · subst hk
    rw [hi]
    by_cases hk2 : k2 = arn
    · subst hk2
      refine ⟨apush k2 v inner, (alookup k2 inner).getD [] ++ [v],
        alookup_aset_self _ _ _, alookup_apush_self _ _ _, ?_⟩
      rw [ha]
      simp [hp]
    · refine ⟨apush k2 v inner, ports, alookup_aset_self _ _ _, ?_, hp⟩
      rw [alookup_apush_ne _ _ (fun h => hk2 h.symm), ha]
  · cases hm : alookup k1 m with
    | none =>
      refine ⟨inner, ports, ?_, ha, hp⟩
      rw [alookup_aset_ne _ _ (fun h => hk h.symm), hi]
    | some inner1 =>
      refine ⟨inner, ports, ?_, ha, hp⟩
      rw [alookup_aset_ne _ _ (fun h => hk h.symm), hi]

theorem tdMem_addHealth_pres {id arn : String} {p : Option Int}
    {m : List (String × List (String × List (Option Int)))}
    (h : ∃ inner ports, alookup id m = some inner
      ∧ alookup arn inner = some ports ∧ p ∈ ports)
    (a : String) (ds : List (String × Option Int)) :
    ∃ inner ports, alookup id (addHealth a ds m) = some inner
      ∧ alookup arn inner = some ports ∧ p ∈ ports := by
  induction ds generalizing m with
  | nil => exact h
  | cons d rest ih =>
    exact ih (tdMem_apush2_pres h d.1 a d.2)

theorem tdMem_addHealth {id a : String} {p : Option Int}
    (ds : List (String × Option Int))
    (m : List (String × List (String × List (Option Int))))
    (hmem : (id, p) ∈ ds) :
    ∃ inner ports, alookup id (addHealth a ds m) = some inner
      ∧ alookup a inner = some ports ∧ p ∈ ports := by
  induction ds generalizing m with
  | nil => simp at hmem
  | cons d rest ih =>
    rcases List.mem_cons.mp hmem with h1 | h1
    · subst h1
      simp only [addHealth]
      exact tdMem_addHealth_pres (tdMem_apush2_self id a p m) a rest
    · exact ih _ h1

theorem tdMem_getIdToTDsAux_pres {id arn : String} {p : Option Int}
    {m : List (String × List (String × List (Option Int)))}
    (h : ∃ inner ports, alookup id m = some inner
      ∧ alookup arn inner = some ports ∧ p ∈ ports)
    (tgs : List TG) :
    ∃ inner ports, alookup id (getIdToTDsAux tgs m) = some inner
      ∧ alookup arn inner = some ports ∧ p ∈ ports := by
  induction tgs generalizing m with
  | nil => exact h
  | cons tg rest ih =>
    exact ih (tdMem_addHealth_pres h tg.arn tg.health)

theorem tdMem_getIdToTDsAux2 {id : String} {p : Option Int} {tg : TG} :
    ∀ (tgs : List TG) (m : List (String × List (String × List (Option Int)))),
    tg ∈ tgs → (id, p) ∈ tg.health →
    ∃ inner ports, alookup id (getIdToTDsAux tgs m) = some inner
      ∧ alookup tg.arn inner = some ports ∧ p ∈ ports := by
  intro tgs
  induction tgs with
  | nil =>
    intro m h _
    simp at h
  | cons tg1 rest ih =>
    intro m htg hp
    rcases List.mem_cons.mp htg with h1 | h1
    · subst h1
      simp only [getIdToTDsAux]
      exact tdMem_getIdToTDsAux_pres (tdMem_addHealth tg.health m hp) rest
    · simp only [getIdToTDsAux]
      exact ih _ h1 hp

theorem tdMem_getIdToTDs {id : String} {p : Option Int} {tg : TG} {tgs : List TG}
    (htg : tg ∈ tgs) (hp : (id, p) ∈ tg.health) :
    ∃ inner ports, alookup id (getIdToTDs tgs) = some inner
      ∧ alookup tg.arn inner = some ports ∧ p ∈ ports := by
  unfold getIdToTDs
  exact tdMem_getIdToTDsAux2 tgs [] htg hp

theorem mem_buildTargets {arn : String} {p : Option Int}
    (inner : List (String × List (Option Int))) (ports : List (Option Int))
    (ha : alookup arn inner = some ports) (hp : p ∈ ports) :
    ({ arn := arn, port := p, detached := false } : AwsTarget) ∈ buildTargets inner := by
  induction inner with
  | nil => simp [alookup] at ha
  | cons kv rest ih =>
    obtain ⟨a, ps⟩ := kv
    by_cases h : a = arn
    · simp only [alookup, h, if_true, Option.some.injEq] at ha
      subst h
      subst ha
      unfold buildTargets
      apply List.mem_append_left
      rw [List.mem_map]
      exact ⟨p, hp, rfl⟩
    · simp only [alookup, h, if_false] at ha
      unfold buildTargets
      exact List.mem_append_right _ (ih ha)

/-! ## Claim C9 — distinct (ARN, port) entries at cache time -/

/-- C9: when resolution finds the node's instance registered with the same
target-group ARN under two health descriptions differing in port, the
attachment record built at cache time contains two distinct target entries
for that ARN — one per (ARN, port) pair — each starting detached = false
and hence tracked separately for detach and attach. -/
theorem cache_keeps_distinct_port_entries (cfg : Config) (env : Env) (node : Node) (st : St)
    (inst : String) (m : Node) (tg : TG) (p1 p2 : Option Int)
    (hcached : Cached node = false)
    (hinst : getInstanceID node = some inst)
    (hget : getNode node.name st.nodes = some m)
    (hCLB : env.describeCLBFail = false)
    (hTG : env.describeTGFail = false)
    (hHealth : env.targetGroups.all (fun tg => !env.describeHealthFail tg.arn) = true)
    (htgs : shouldHandleTargetGroups cfg = true)
    (htg : tg ∈ env.targetGroups)
    (hp1 : (inst, p1) ∈ tg.health)
    (hp2 : (inst, p2) ∈ tg.health)
    (hne : p1 ≠ p2) :
    ∃ st' spec, cacheNodeAttachments cfg env [node] st = (st', true)
      ∧ alookup node.name st'.records = some spec
      ∧ ({ arn := tg.arn, port := p1, detached := false } : AwsTarget) ∈ spec.awsTargets
      ∧ ({ arn := tg.arn, port := p2, detached := false } : AwsTarget) ∈ spec.awsTargets
      ∧ ({ arn := tg.arn, port := p1, detached := false } : AwsTarget)
          ≠ { arn := tg.arn, port := p2, detached := false } := by
  obtain ⟨st', h1, _, h3⟩ :=
    cacheNodeAttachments_single cfg env node st inst m hcached hinst hget hCLB hTG hHealth
  rw [htgs] at h3
  simp only [if_true] at h3
  obtain ⟨inner, ports1, hi, ha1, hpp1⟩ := tdMem_getIdToTDs htg hp1
  obtain ⟨inner2, ports2, hi2, ha2, hpp2⟩ := tdMem_getIdToTDs htg hp2
  rw [hi] at hi2
  obtain rfl : inner = inner2 := Option.some.inj hi2
  refine ⟨st', _, h1, h3, ?_, ?_, by simp [hne]⟩
  · rw [hi]
    exact mem_buildTargets inner ports1 ha1 hpp1
  · rw [hi]
    exact mem_buildTargets inner ports2 ha2 hpp2

/-- Witness for C9: instance "i-9" registered with "tg1" both portless and
at port 8080 yields a record with both entries. -/
theorem cache_keeps_distinct_port_entries_witness :
    (cacheNodeAttachments cfgStatic envTwoPorts [node9] st9).2 = true
    ∧ (alookup "n9" (cacheNodeAttachments cfgStatic envTwoPorts [node9] st9).1.records).map
        (fun s => decide (({ arn := "tg1", port := none, detached := false } : AwsTarget)
            ∈ s.awsTargets)
          && decide (({ arn := "tg1", port := some 8080, detached := false } : AwsTarget)
            ∈ s.awsTargets)) = some true := by
  obtain ⟨st', spec, h1, h2, h3, h4, _⟩ :=
    cache_keeps_distinct_port_entries cfgStatic envTwoPorts node9 st9 "i-9" node9
      { arn := "tg1", health := [("i-9", none), ("i-9", some 8080)] } none (some 8080)
      (by decide) (by decide) (by decide) rfl rfl (by decide) rfl (by decide)
      (by decide) (by decide) (by decide)
  constructor
  · rw [h1]
  · rw [h1]
    simp only
    show (alookup node9.name st'.records).map
      (fun s => decide (({ arn := "tg1", port := none, detached := false } : AwsTarget)
          ∈ s.awsTargets)
        && decide (({ arn := "tg1", port := some 8080, detached := false } : AwsTarget)
          ∈ s.awsTargets)) = some true
    rw [h2]
    simp [h3, h4]

/-! ## Claim C10 — fresh caching marks the node BeingDetached -/

/-- C10: whenever caching succeeds for a not-yet-cached node, the stored
node is updated with the cached label set to "true" AND the detaching
annotation set to "true" in the same write — so every freshly cached node
is classified as BeingDetached by the reconciler from then on, although no
detach has been started for it. -/
theorem cache_marks_node_being_detached (cfg : Config) (env : Env) (node : Node) (st : St)
    (inst : String) (m : Node)
    (hcached : Cached node = false)
    (hinst : getInstanceID node = some inst)
    (hget : getNode node.name st.nodes = some m)
    (hCLB : env.describeCLBFail = false)
    (hTG : env.describeTGFail = false)
    (hHealth : env.targetGroups.all (fun tg => !env.describeHealthFail tg.arn) = true) :
    ∃ st' latest, cacheNodeAttachments cfg env [node] st = (st', true)
      ∧ getNode node.name st'.nodes = some latest
      ∧ alookup NodeLabelKeyCached latest.labels = some "true"
      ∧ alookup NodeAnnotationKeyDetaching latest.annotations = some "true"
      ∧ Cached latest = true
      ∧ nodeBeingDetached latest = true := by
  obtain ⟨st', h1, h2, _⟩ :=
    cacheNodeAttachments_single cfg env node st inst m hcached hinst hget hCLB hTG hHealth
  refine ⟨st', _, h1, h2, alookup_aset_self _ _ _, alookup_aset_self _ _ _, ?_, ?_⟩
  · simp [Cached, alookup_aset_self]
  · unfold nodeBeingDetached
    have hany := any_pair_of_alookup
      (alookup_aset_self NodeAnnotationKeyDetaching "true" m.annotations)
    rw [hany]
    simp

/-- Witness for C10 at a concrete fresh node. -/
theorem cache_marks_node_being_detached_witness :
    (cacheNodeAttachments cfgStatic envOK [node9] st9).2 = true
    ∧ (getNode "n9" (cacheNodeAttachments cfgStatic envOK [node9] st9).1.nodes).map
        (fun n => nodeBeingDetached n) = some true := by
  obtain ⟨st', latest, h1, h2, _, _, _, h6⟩ :=
    cache_marks_node_being_detached cfgStatic envOK node9 st9 "i-9" node9
      (by decide) (by decide) (by decide) rfl rfl (by decide)
  constructor
  · rw [h1]
  · rw [h1]
    simp only
    show (getNode node9.name st'.nodes).map (fun n => nodeBeingDetached n) = some true
    rw [h2]
    simp [h6]

/-! ## Claim C8 — master nodes -/

theorem cacheLoop_preserves (n2i : List (String × String))
    (clbsMap : List (String × List String))
    (tdsMap : List (String × List (String × List (Option Int))))
    (f : Node → β)
    (hf : ∀ (nd : Node) ls as, f { nd with labels := ls, annotations := as } = f nd) :
    ∀ (nodes : List Node) (st st' : St) (ok : Bool),
    cacheLoop n2i clbsMap tdsMap nodes st = (st', ok) →
    (∀ x, (getNode x st'.nodes).map f = (getNode x st.nodes).map f)
    ∧ st'.events.countP (fun e => e.isRegistryCall)
        = st.events.countP (fun e => e.isRegistryCall)
    ∧ st'.events.countP (fun e => e.isPodsDelete)
        = st.events.countP (fun e => e.isPodsDelete) := by
  intro nodes
  induction nodes with
  | nil =>
    intro st st' ok h
    simp only [cacheLoop, Prod.mk.injEq] at h
    obtain ⟨rfl, rfl⟩ := And.intro h.1 h.2
    exact ⟨fun x => rfl, rfl, rfl⟩
  | cons node rest ih =>
    intro st st' ok h
    cases hg : getNode node.name st.nodes with
    | none =>
      simp only [cacheLoop, hg, Prod.mk.injEq] at h
      obtain ⟨rfl, rfl⟩ := And.intro h.1 h.2
      refine ⟨fun x => rfl, ?_, ?_⟩ <;>
        simp [List.countP_append, Event.isRegistryCall, Event.isPodsDelete]
    | some latest =>
      have hname := getNode_name hg
      simp only [cacheLoop, hg] at h
      obtain ⟨hmap, hreg, hpod⟩ := ih _ _ _ h
      have hset := getNode_map_setNode f st.nodes latest
        { latest with
          labels := aset NodeLabelKeyCached "true" latest.labels,
          annotations := aset NodeAnnotationKeyDetaching "true" latest.annotations }
        (by simpa [hname] using hg) (hf latest _ _)
      refine ⟨?_, ?_, ?_⟩
      · intro x
        rw [hmap x]
        simpa using hset x
      · rw [hreg]
        simp [List.countP_append, Event.isRegistryCall]
      · rw [hpod]
        simp [List.countP_append, Event.isPodsDelete]

theorem cacheNodeAttachments_preserves (cfg : Config) (env : Env) (nodes : List Node)
    (f : Node → β)
    (hf : ∀ (nd : Node) ls as, f { nd with labels := ls, annotations := as } = f nd)
    (st st' : St) (ok : Bool)
    (h : cacheNodeAttachments cfg env nodes st = (st', ok)) :
    (∀ x, (getNode x st'.nodes).map f = (getNode x st.nodes).map f)
    ∧ st'.events.countP (fun e => e.isRegistryCall)
        = st.events.countP (fun e => e.isRegistryCall)
    ∧ st'.events.countP (fun e => e.isPodsDelete)
        = st.events.countP (fun e => e.isPodsDelete) := by
  unfold cacheNodeAttachments at h
  cases hcol : collectUncached nodes with
  | none =>
    rw [hcol] at h
    simp only [Prod.mk.injEq] at h
    obtain ⟨rfl, rfl⟩ := And.intro h.1 h.2
    exact ⟨fun x => rfl, rfl, rfl⟩
  | some pair =>
    obtain ⟨n2i, ids⟩ := pair
    rw [hcol] at h
    simp only at h
    by_cases hids : ids.isEmpty
    · rw [if_pos hids] at h
      simp only [Prod.mk.injEq] at h
      obtain ⟨rfl, rfl⟩ := And.intro h.1 h.2
      exact ⟨fun x => rfl, rfl, rfl⟩
    · rw [if_neg hids] at h
      cases hclbs : (if shouldHandleCLBs cfg then
          (if env.describeCLBFail then none else some (getIdToCLBs ids env.clbs))
          else some []) with
      | none =>
        rw [hclbs] at h
        simp only [Prod.mk.injEq] at h
        obtain ⟨rfl, rfl⟩ := And.intro h.1 h.2
        exact ⟨fun x => rfl, rfl, rfl⟩
      | some clbsMap =>
        rw [hclbs] at h
        cases htds : (if shouldHandleTargetGroups cfg then
            (if env.describeTGFail
               || env.targetGroups.any (fun tg => env.describeHealthFail tg.arn)
             then none else some (getIdToTDs env.targetGroups))
            else some []) with
        | none =>
          rw [htds] at h
          simp only [Prod.mk.injEq] at h
          obtain ⟨rfl, rfl⟩ := And.intro h.1 h.2
          exact ⟨fun x => rfl, rfl, rfl⟩
        | some tdsMap =>
          rw [htds] at h
          exact cacheLoop_preserves n2i clbsMap tdsMap f hf nodes st st' ok h

/-- C8 counterexample: in static mode, an uncached master node with an
instance label IS updated during reconciliation — the attachment-caching
step, which precedes the master check, writes the cached label and the
detaching annotation onto it — contradicting "without updating the
node". -/
theorem reconcile_master_node_updated :
    alookup NodeLabelKeyCached nodeMaster.labels = none
    ∧ (Reconcile cfgStatic envOK stMaster "m1").err = false
    ∧ (getNode "m1" (Reconcile cfgStatic envOK stMaster "m1").st.nodes).map
        (fun n => alookup NodeLabelKeyCached n.labels) = some (some "true")
    ∧ (Reconcile cfgStatic envOK stMaster "m1").st.events.contains
        (Event.nodeWrite "m1") = true := by
  decide

/-- C8 (amended): for every master node, Reconcile returns success without
invoking any detach or attach orchestration — no registry call and no pod
deletion is performed — and without the detach/attach phase node update:
every stored node keeps its taints, conditions and unschedulable flag.  In
static mode the attachment-caching step that precedes the master check may
still run, creating or refreshing attachment records and writing the
cached label and detaching annotation onto nodes. -/
theorem reconcile_master_skips (cfg : Config) (env : Env) (st : St) (nm : String)
    (node : Node)
    (hget : getNode nm st.nodes = some node)
    (hmaster : isMasterNode node = true) :
    (Reconcile cfg env st nm).err = false
    ∧ (Reconcile cfg env st nm).st.events.countP (fun e => e.isRegistryCall)
        = st.events.countP (fun e => e.isRegistryCall)
    ∧ (Reconcile cfg env st nm).st.events.countP (fun e => e.isPodsDelete)
        = st.events.countP (fun e => e.isPodsDelete)
    ∧ ∀ x, (getNode x (Reconcile cfg env st nm).st.nodes).map
          (fun n => (n.taints, n.conditions, n.unschedulable))
        = (getNode x st.nodes).map
          (fun n => (n.taints, n.conditions, n.unschedulable)) := by
  have hf : ∀ (nd : Node) ls as,
      (fun n => (n.taints, n.conditions, n.unschedulable))
        ({ nd with labels := ls, annotations := as } : Node)
      = (fun n => (n.taints, n.conditions, n.unschedulable)) nd := fun _ _ _ => rfl
  rcases hall : cacheAllNodeAttachments cfg env st with ⟨stAll, okAll⟩
  obtain ⟨hAmap, hAreg, hApod⟩ :=
    cacheNodeAttachments_preserves cfg env st.nodes (fun n => (n.taints, n.conditions, n.unschedulable)) hf st stAll okAll hall
  have hmain : ∃ stMid,
      ((if (cfg.awsEnabled && (getInstanceID node).isSome) && !cfg.synced && staticMode cfg
        then ((cacheAllNodeAttachments cfg env st).1, true)
        else (st, cfg.synced)) : St × Bool).1 = stMid
      ∧ (∀ x, (getNode x stMid.nodes).map
            (fun n => (n.taints, n.conditions, n.unschedulable))
          = (getNode x st.nodes).map
            (fun n => (n.taints, n.conditions, n.unschedulable)))
      ∧ stMid.events.countP (fun e => e.isRegistryCall)
          = st.events.countP (fun e => e.isRegistryCall)
      ∧ stMid.events.countP (fun e => e.isPodsDelete)
          = st.events.countP (fun e => e.isPodsDelete) := by
    by_cases hc : ((cfg.awsEnabled && (getInstanceID node).isSome)
        && !cfg.synced && staticMode cfg) = true
    · refine ⟨stAll, ?_, hAmap, hAreg, hApod⟩
      rw [if_pos hc, hall]
    · refine ⟨st, ?_, fun x => rfl, rfl, rfl⟩
      rw [if_neg hc]
  obtain ⟨stMid, hMidEq, hMmap, hMreg, hMpod⟩ := hmain
  rcases hone : cacheNodeAttachments cfg env [node] stMid with ⟨stOne, okOne⟩
  obtain ⟨hOmap, hOreg, hOpod⟩ :=
    cacheNodeAttachments_preserves cfg env [node] (fun n => (n.taints, n.conditions, n.unschedulable)) hf stMid stOne okOne hone
  have hmain2 : ∃ stEnd,
      (if (cfg.awsEnabled && (getInstanceID node).isSome) && staticMode cfg && !Cached node
        then (cacheNodeAttachments cfg env [node] stMid).1
        else stMid) = stEnd
      ∧ (∀ x, (getNode x stEnd.nodes).map
            (fun n => (n.taints, n.conditions, n.unschedulable))
          = (getNode x st.nodes).map
            (fun n => (n.taints, n.conditions, n.unschedulable)))
      ∧ stEnd.events.countP (fun e => e.isRegistryCall)
          = st.events.countP (fun e => e.isRegistryCall)
      ∧ stEnd.events.countP (fun e => e.isPodsDelete)
          = st.events.countP (fun e => e.isPodsDelete) := by
    by_cases hc : ((cfg.awsEnabled && (getInstanceID node).isSome)
        && staticMode cfg && !Cached node) = true
    · refine ⟨stOne, ?_, ?_, hOreg.trans hMreg, hOpod.trans hMpod⟩
      · rw [if_pos hc, hone]
      · intro x
        rw [hOmap x]
        exact hMmap x
    · refine ⟨stMid, ?_, hMmap, hMreg, hMpod⟩
      rw [if_neg hc]
  obtain ⟨stEnd, hEndEq, hEmap, hEreg, hEpod⟩ := hmain2
  have hres : Reconcile cfg env st nm = ReconcileOut.mk stEnd
      (((if (cfg.awsEnabled && (getInstanceID node).isSome) && !cfg.synced && staticMode cfg
        then ((cacheAllNodeAttachments cfg env st).1, true)
        else (st, cfg.synced)) : St × Bool).2) false := by
    simp only [Reconcile, hget]
    rw [← hEndEq, ← hMidEq]
    simp [hmaster]
  rw [hres]
  exact ⟨rfl, hEreg, hEpod, hEmap⟩

/-- Witness for the amended C8 theorem at the concrete master node. -/
theorem reconcile_master_skips_witness :
    (Reconcile cfgStatic envOK stMaster "m1").err = false
    ∧ (Reconcile cfgStatic envOK stMaster "m1").st.events.countP
        (fun e => e.isRegistryCall) = 0
    ∧ (getNode "m1" (Reconcile cfgStatic envOK stMaster "m1").st.nodes).map
        (fun n => (n.taints, n.conditions, n.unschedulable))
      = some (nodeMaster.taints, nodeMaster.conditions, nodeMaster.unschedulable) := by
  obtain ⟨h1, h2, _, h4⟩ :=
    reconcile_master_skips cfgStatic envOK stMaster "m1" nodeMaster (by decide) (by decide)
  refine ⟨h1, by rw [h2]; rfl, ?_⟩
  rw [h4 "m1"]
  decide

end NodeDetacher
